import Mathlib

/-! # Temperature spectrometer: complex arithmetic, direct DFT, spectrum and PSD

A shallow embedding of `sw/dsp/complex_numbers.cpp`, `sw/dsp/dft.cpp` and of the
analysis routines `computeDFT` / `computePSD` of `sw/main.cpp` (the same loops
appear in `TempScope::dftThreadOperation`).

Modelling conventions.

* The definitions are written once, over any type `R` that carries the
  operations the sources use (`+`, `-`, `*`, `/`, unary minus, the conversions
  from integers); no law of arithmetic is built into them.  They are read in
  two arithmetics.
  - In the exact one `R` is a field (the rationals when a definition is
    evaluated, the reals when trigonometry matters).  Rounding, infinities and
    NaN are not represented, and the value the model gives to a quotient with
    a zero denominator is not the value the hardware produces; no statement
    below relies on it.
  - In the other one `R` is `Binary32`, the IEEE 754 single format of the C
    type `float`: every operation rounds to nearest (ties to even), overflows
    to an infinity and propagates NaN.  Statements whose truth depends on
    rounding are settled there.  The sources are built for mbed (ARM), where
    an expression of `float` operands is evaluated in binary32.  Where the
    source goes through `double` before it stores a `float` (the twiddle
    angle of dft.cpp:38, the calls of `math.h`, `c.imag *= -1.0`), the
    `Binary32` reading rounds each step to binary32 instead; the statements
    in `Binary32` rest only on values on which the two agree: a zero angle, a
    negation, the square of zero, the product of 20 and `-inf`.
* The functions of `math.h` are not part of the repository.  They are taken as
  a parameter `Libm R`; statements that need their mathematical meaning ask for
  it explicitly (`Libm.exact`).  `pow(v, 2)` is written `v ^ 2`, and
  `floor(N / 2)` on an `int N` is the truncating integer quotient.
* C arrays are lists.  A write `a[i] = v` is `List.set`, a read `a[i]` is
  `List.getD` with the zero element standing for a read outside the buffer.
* A counted loop `for (i = 0; i < B; i++)` is a left fold over `List.range B`.
-/

namespace TempSpectrometer

/-- The complex type of `complex_numbers.h`: `{ real: float, imag: float }`. -/
@[ext] structure complex_t (R : Type) where
  real : R
  imag : R
deriving DecidableEq

/-- The functions and constants of `math.h` used by the sources. -/
structure Libm (R : Type) where
  exp : R → R
  cos : R → R
  sin : R → R
  sqrt : R → R
  log10 : R → R
  atan2 : R → R → R
  M_PI : R

/-- The math library computes the real functions it is named after. -/
def Libm.exact (L : Libm ℝ) : Prop :=
  L.exp = Real.exp ∧ L.cos = Real.cos ∧ L.sin = Real.sin ∧ L.sqrt = Real.sqrt ∧
    L.log10 = Real.logb 10 ∧ L.atan2 = (fun b a => Complex.arg ⟨a, b⟩) ∧
    L.M_PI = Real.pi

/-- The error kinds named by the specification (section 7). -/
inductive DspError where
  | ArithmeticError
  | InvalidInput
  | DomainError
  | SourceError
deriving DecidableEq

section Complex

variable {R : Type} [Zero R] [One R] [Add R] [Sub R] [Mul R] [Div R] [Neg R]
  [NatCast R] [IntCast R] [Pow R ℕ]

/-- Complex Number `c = a + bi` (complex_numbers.cpp:55). -/
def complex_num (a b : R) : complex_t R := ⟨a, b⟩

/-- Real part (complex_numbers.cpp:65). -/
def complex_real (c : complex_t R) : R := c.real

/-- Imaginary part (complex_numbers.cpp:72). -/
def complex_imag (c : complex_t R) : R := c.imag

/-- Complex norm: `sqrt(pow(c.real,2) + pow(c.imag,2))` (complex_numbers.cpp:79). -/
def complex_norm (L : Libm R) (c : complex_t R) : R :=
  L.sqrt (c.real ^ 2 + c.imag ^ 2)

/-- Complex phase: `atan2(c.imag, c.real)` (complex_numbers.cpp:88). -/
def complex_phase (L : Libm R) (c : complex_t R) : R :=
  L.atan2 c.imag c.real

/-- Complex conjugate: `c.imag *= -1.0; return c;` (complex_numbers.cpp:97). -/
def complex_conj (c : complex_t R) : complex_t R :=
  { c with imag := c.imag * (-1) }

/-- Complex exponential (complex_numbers.cpp:106). -/
def complex_exp (L : Libm R) (c : complex_t R) : complex_t R :=
  { real := L.exp c.real * L.cos c.imag
    imag := L.exp c.real * L.sin c.imag }

/-- Complex addition (complex_numbers.cpp:118). -/
def complex_add (a b : complex_t R) : complex_t R :=
  { real := a.real + b.real
    imag := a.imag + b.imag }

/-- Complex subtraction (complex_numbers.cpp:130). -/
def complex_sub (a b : complex_t R) : complex_t R :=
  { real := a.real - b.real
    imag := a.imag - b.imag }

/-- Complex multiplication (complex_numbers.cpp:142). -/
def complex_mul (a b : complex_t R) : complex_t R :=
  { real := a.real * b.real - a.imag * b.imag
    imag := a.real * b.imag + a.imag * b.real }

/-- Complex division (complex_numbers.cpp:154): numerator `a * conj b`,
denominator the real part of `b * conj b`; there is no test of the denominator
and no error path. -/
def complex_div (a b : complex_t R) : complex_t R :=
  let nu := complex_mul a (complex_conj b)
  let dn := complex_mul b (complex_conj b)
  { real := nu.real / dn.real
    imag := nu.imag / dn.real }

/-- Division as section 4.1 of the specification words it: it fails with
`ArithmeticError` when the real denominator term `b.re² + b.im²` is zero and is
`mul(a, conj b)` divided componentwise by that term otherwise. -/
def spec_complex_div [DecidableEq R] (a b : complex_t R) :
    Except DspError (complex_t R) :=
  if b.real ^ 2 + b.imag ^ 2 = 0 then
    Except.error DspError.ArithmeticError
  else
    Except.ok
      { real := (complex_mul a (complex_conj b)).real / (b.real ^ 2 + b.imag ^ 2)
        imag := (complex_mul a (complex_conj b)).imag / (b.real ^ 2 + b.imag ^ 2) }

end Complex

section Transform

variable {R : Type} [Zero R] [One R] [Add R] [Sub R] [Mul R] [Div R] [Neg R]
  [NatCast R] [IntCast R] [Pow R ℕ]

/-- The twiddle argument of dft.cpp:38, `complex_num(0, -2*M_PI*k*n/N)`. -/
def dft_kn (L : Libm R) (N : Int) (k n : Nat) : complex_t R :=
  complex_num 0 (-2 * L.M_PI * (k : R) * (n : R) / (N : R))

/-- The product added to `y[k]` at dft.cpp:39: `complex_mul(x[n], complex_exp(kn))`. -/
def dft_term (L : Libm R) (x : List (complex_t R)) (N : Int) (k n : Nat) :
    complex_t R :=
  complex_mul (x.getD n ⟨0, 0⟩) (complex_exp L (dft_kn L N k n))

/-- The inner loop of `dft` (dft.cpp:36-40) for one `k`:
`y[k] = complex_add(y[k], complex_mul(x[n], complex_exp(kn)))` for `n = 0 .. N-1`. -/
def dft_inner (L : Libm R) (x : List (complex_t R)) (N : Int)
    (y : List (complex_t R)) (k : Nat) : List (complex_t R) :=
  (List.range N.toNat).foldl
    (fun y n => y.set k (complex_add (y.getD k ⟨0, 0⟩) (dft_term L x N k n))) y

/-- Discrete Fourier Transform, direct implementation (dft.cpp:26-42).  The
buffer `y` is read before it is written; the function returns the buffer as it
stands after both loops. -/
def dft (L : Libm R) (y x : List (complex_t R)) (N : Int) : List (complex_t R) :=
  (List.range N.toNat).foldl (dft_inner L x N) y

/-- The `k`-th coefficient as section 4.2 writes it: the terms
`x[n] · exp(0, −2π·k·n/N)` for `n = 0 .. N-1` summed with `complex_add`,
starting from zero. -/
def dft_coefficient (L : Libm R) (x : List (complex_t R)) (N : Int) (k : Nat) :
    complex_t R :=
  (List.range N.toNat).foldl (fun acc n => complex_add acc (dft_term L x N k n))
    ⟨0, 0⟩

/-- The transform as section 4.2 of the specification words it: `InvalidInput`
for `N ≤ 0`, the list of the `N` coefficients otherwise. -/
def spec_dft (L : Libm R) (x : List (complex_t R)) (N : Int) :
    Except DspError (List (complex_t R)) :=
  if N ≤ 0 then Except.error DspError.InvalidInput
  else Except.ok ((List.range N.toNat).map (dft_coefficient L x N))

end Transform

section Analysis

variable {R : Type} [Zero R] [One R] [Add R] [Sub R] [Mul R] [Div R] [Neg R]
  [NatCast R] [IntCast R] [Pow R ℕ]

/-- The global buffers of main.cpp:38-42 (`x`, `cx`, `X`, `spectrum`, `Pxx`). -/
structure Buffers (R : Type) where
  x : List R
  cx : List (complex_t R)
  X : List (complex_t R)
  spectrum : List R
  Pxx : List R

/-- First half of `computeDFT` (main.cpp:84-91): the samples become
zero-imaginary complex values, the output is zeroed, then `dft` runs. -/
def computeDFT_transform (L : Libm R) (N : Int) (x : List R)
    (cx X : List (complex_t R)) : List (complex_t R) × List (complex_t R) :=
  let cx := (List.range N.toNat).foldl
    (fun cx n => cx.set n (complex_num (x.getD n 0) 0)) cx
  let X := (List.range N.toNat).foldl (fun X n => X.set n (complex_num 0 0)) X
  (cx, dft L X cx N)

/-- Number of passes of `for (int n = 0; n < floor(N / 2) - 1; n++)`
(main.cpp:96 and main.cpp:108): `N / 2` is the truncating quotient of two
`int`s, and a bound that is zero or negative gives no pass. -/
def derivation_passes (N : Int) : Nat :=
  (Int.tdiv N 2 - 1).toNat

/-- Second half of `computeDFT` (main.cpp:93-100; TempScope.cpp:118-126): the
spectrum is zeroed, then for `n = 0; n < floor(N / 2) - 1` the entries `2n` and
`2n + 1` are written. -/
def computeDFT_spectrum (L : Libm R) (N : Int) (X : List (complex_t R))
    (spectrum : List R) : List R :=
  let spectrum := (List.range N.toNat).foldl (fun s n => s.set n 0) spectrum
  (List.range (derivation_passes N)).foldl
    (fun s n =>
      (s.set (2 * n) (complex_norm L (X.getD (n + 1) ⟨0, 0⟩))).set (2 * n + 1)
        ((complex_norm L (X.getD (n + 2) ⟨0, 0⟩)
            + complex_norm L (X.getD (n + 1) ⟨0, 0⟩)) / 2))
    spectrum

/-- Compute DFT (main.cpp:82-101), on the global buffers. -/
def computeDFT (L : Libm R) (N : Int) (g : Buffers R) : Buffers R :=
  let t := computeDFT_transform L N g.x g.cx g.X
  { g with cx := t.1, X := t.2, spectrum := computeDFT_spectrum L N t.2 g.spectrum }

/-- The loops of `computePSD` (main.cpp:106-112; TempScope.cpp:128-135). -/
def computePSD_loop (L : Libm R) (N : Int) (X : List (complex_t R))
    (Pxx : List R) : List R :=
  let Pxx := (List.range N.toNat).foldl (fun p n => p.set n 0) Pxx
  (List.range (derivation_passes N)).foldl
    (fun p n =>
      let p := p.set (2 * n) (20 * L.log10 (complex_norm L (X.getD (n + 1) ⟨0, 0⟩) ^ 2))
      let avg := (complex_norm L (X.getD (n + 2) ⟨0, 0⟩)
                    + complex_norm L (X.getD (n + 1) ⟨0, 0⟩)) / 2
      p.set (2 * n + 1) (20 * L.log10 (avg ^ 2)))
    Pxx

/-- Compute PSD (main.cpp:104-113), on the global buffers. -/
def computePSD (L : Libm R) (N : Int) (g : Buffers R) : Buffers R :=
  { g with Pxx := computePSD_loop L N g.X g.Pxx }

end Analysis

section PsdEntries

variable {R : Type} [Zero R] [One R] [Add R] [Sub R] [Mul R] [Div R] [Neg R]
  [NatCast R] [IntCast R] [Pow R ℕ]

end PsdEntries

section Sensor

variable {R : Type} [Field R]

/-- Register addresses (TMP102.cpp:18-19). -/
def TEMP_REG : Nat := 0x00

/-- Configuration register address (TMP102.cpp:19). -/
def CONFIG_REG : Nat := 0x01

/-- One transaction the driver issues on the I2C bus (`I2C::write`, `I2C::read`
of the mbed library): the address byte and the bytes sent, or the number of
bytes asked for. -/
inductive I2COp where
  | write (address : Nat) (data : List Nat)
  | read (address : Nat) (length : Nat)
deriving DecidableEq

/-- The address fields of a `TMP102` object (TMP102.h:28-30). -/
structure TMP102 where
  address : Nat
  rdadd : Nat
  wradd : Nat

/-- What the bus answers during one call of `TMP102::temp`: the value returned
by `I2C::write` and by `I2C::read` (zero when the slave acknowledges, non-zero
otherwise) and the two bytes the read delivers, as unsigned `char`s. -/
structure TempBus where
  write_ack : Int
  read_ack : Int
  data0 : Nat
  data1 : Nat

/-- What a call of `TMP102::temp` leaves behind: the returned code, the content
of `*temp`, and the bus transactions issued, in order. -/
structure TempResult (R : Type) where
  ret : Int
  temp : R
  ops : List I2COp

/-- Get temperature (TMP102.cpp:36-56).  The argument `temp` is the content
of `*temp` before the call. -/
def TMP102.temp (dev : TMP102) (bus : TempBus) (temp : R) : TempResult R :=
  let reg := TEMP_REG
  if bus.write_ack ≠ 0 then
    { ret := 100, temp := temp, ops := [I2COp.write dev.wradd [reg]] }
  else if bus.read_ack ≠ 0 then
    { ret := 101, temp := temp,
      ops := [I2COp.write dev.wradd [reg], I2COp.read dev.rdadd 2] }
  else
    let temperature : Nat := (bus.data0 <<< 4) ||| (bus.data1 >>> 4)
    { ret := 0, temp := (temperature : R) * 0.0625,
      ops := [I2COp.write dev.wradd [reg], I2COp.read dev.rdadd 2] }

/-- What the bus answers during one call of `TMP102::init`: the values returned
by the four transactions, in order, and the two configuration bytes the read
delivers. -/
structure InitBus where
  ack1 : Int
  ack2 : Int
  data0 : Nat
  data1 : Nat
  ack3 : Int
  ack4 : Int

/-- What a call of `TMP102::init` leaves behind: the returned code and the bus
transactions issued, in order. -/
structure InitResult where
  ret : Int
  ops : List I2COp

/-- The `switch (rate)` of `TMP102::init` (TMP102.cpp:80-105) on the byte
`data[1]`: `b &= ~m` is `b &&& (0xFF ^^^ m)` on an 8-bit value and `b |= m` is
`b ||| m`. -/
def TMP102.rate_bits (rate : Int) (data1 : Nat) : Nat :=
  if rate = 0 then
    (data1 &&& (0xFF ^^^ (1 <<< 6))) &&& (0xFF ^^^ (1 <<< 7))
  else if rate = 1 then
    (data1 ||| (1 <<< 6)) &&& (0xFF ^^^ (1 <<< 7))
  else if rate = 2 then
    (data1 &&& (0xFF ^^^ (1 <<< 6))) ||| (1 <<< 7)
  else if rate = 3 then
    (data1 ||| (1 <<< 6)) ||| (1 <<< 7)
  else
    (data1 &&& (0xFF ^^^ (1 <<< 6))) ||| (1 <<< 7)

/-- Initialise sensor (TMP102.cpp:58-119); the bus speed setting has no part
in the bytes exchanged. -/
def TMP102.init (dev : TMP102) (bus : InitBus) (rate : Int) : InitResult :=
  let reg := CONFIG_REG
  if bus.ack1 ≠ 0 then
    { ret := 100, ops := [I2COp.write dev.wradd [reg]] }
  else if bus.ack2 ≠ 0 then
    { ret := 101, ops := [I2COp.write dev.wradd [reg], I2COp.read dev.rdadd 2] }
  else
    let data0 := bus.data0
    let data1 := TMP102.rate_bits rate bus.data1
    if bus.ack3 ≠ 0 then
      { ret := 110,
        ops := [I2COp.write dev.wradd [reg], I2COp.read dev.rdadd 2,
          I2COp.write dev.wradd [reg]] }
    else if bus.ack4 ≠ 0 then
      { ret := 111,
        ops := [I2COp.write dev.wradd [reg], I2COp.read dev.rdadd 2,
          I2COp.write dev.wradd [reg], I2COp.write dev.wradd [data0, data1]] }
    else
      { ret := 0,
        ops := [I2COp.write dev.wradd [reg], I2COp.read dev.rdadd 2,
          I2COp.write dev.wradd [reg], I2COp.write dev.wradd [data0, data1]] }

end Sensor

section Acquisition

variable {R : Type} [Field R]

/-- The state of the acquisition thread `tmp_daq` between two samples: the
global buffers, the loop variable `n` of main.cpp:165, the local `avg` and the
redraw flag `dirty`. -/
structure DaqState (R : Type) where
  g : Buffers R
  n : Nat
  avg : R
  dirty : Bool

/-- The sample of one pass of main.cpp:166-168: `float temp = 0;
tmp.temp(&temp);`, the returned code being dropped. -/
def daq_temp (dev : TMP102) (bus : TempBus) : R :=
  (TMP102.temp dev bus (0 : R)).temp

/-- One pass of the `for` loop of `tmp_daq` (main.cpp:165-183) with the sample
`temp`, for a window size `N > 0`: `avg += (x[n] = temp)`, then `n++`; when the
loop ends (`n < N` fails) the rest of the `while` body runs (main.cpp:184-200:
`computeDFT`, `computePSD`, `dirty = 1`) and the next pass of `while (1)`
starts with `avg = 0`, `n = 0`.  The flag returned tells whether the analysis
ran.  Logging, the clock and `Thread::wait` touch none of these variables. -/
def tmp_daq_tick (L : Libm R) (N : Nat) (temp : R) (s : DaqState R) :
    DaqState R × Bool :=
  let x := s.g.x.set s.n temp
  let avg := s.avg + temp
  let n := s.n + 1
  if n < N then
    ({ s with g := { s.g with x := x }, n := n, avg := avg }, false)
  else
    let g := computePSD L N (computeDFT L N { s.g with x := x })
    ({ g := g, n := 0, avg := 0, dirty := true }, true)

/-- The thread `tmp_daq` over a sequence of samples, one per pass: the state
reached and, for every pass in order, whether the analysis ran after it. -/
def tmp_daq_ticks (L : Libm R) (N : Nat) (temps : List R) (s : DaqState R) :
    DaqState R × List Bool :=
  temps.foldl
    (fun acc temp =>
      let r := tmp_daq_tick L N temp acc.1
      (r.1, acc.2 ++ [r.2]))
    (s, [])

/-- The thread `tmp_daq` (main.cpp:148-202) over a sequence of bus answers, one
sensor read per pass. -/
def tmp_daq (L : Libm R) (N : Nat) (dev : TMP102) (buses : List TempBus)
    (s : DaqState R) : DaqState R × List Bool :=
  tmp_daq_ticks L N (buses.map (daq_temp dev)) s

end Acquisition

section Scope

variable {R : Type} [Field R]

/-- The data members of `TempScope` (TempScope.h:42-58) that the setters and
the analysis thread use. -/
structure TempScope (R : Type) where
  daqfreq : Int
  nsamples : Int
  currentSample : Int
  signal : List R
  signalDFT : List (complex_t R)
  signalSpectrum : List R
  signalPSD : List R

/-- The constructor (TempScope.cpp:14-29) after the member defaults of
TempScope.h:42-46: four vectors of `nsamples` value-initialised entries. -/
def TempScope.new : TempScope R :=
  { daqfreq := 1
    nsamples := 64
    currentSample := 0
    signal := List.replicate 64 0
    signalDFT := List.replicate 64 ⟨0, 0⟩
    signalSpectrum := List.replicate 64 0
    signalPSD := List.replicate 64 0 }

/-- Setter of the acquisition frequency (TempScope.cpp:42-46). -/
def TempScope.setAqcuisitionFrequencyInHz (t : TempScope R) (f : Int) : TempScope R :=
  if f > 0 then { t with daqfreq := f } else t

/-- Setter of the number of samples (TempScope.cpp:48-52); `floor` of an `int`
is that `int`. -/
def TempScope.setNumberOfSamples (t : TempScope R) (n : Int) : TempScope R :=
  if n > 0 then { t with nsamples := n } else t

/-- A call of one of the two setters. -/
inductive SetterCall where
  | frequency (f : Int)
  | samples (n : Int)

/-- A sequence of setter calls, applied in order. -/
def TempScope.apply_setters (t : TempScope R) (calls : List SetterCall) : TempScope R :=
  calls.foldl
    (fun t c =>
      match c with
      | SetterCall.frequency f => t.setAqcuisitionFrequencyInHz f
      | SetterCall.samples n => t.setNumberOfSamples n)
    t

/-- One pass of the `while (true)` of `TempScope::dftThreadOperation`
(TempScope.cpp:104-149), once signalled.  The buffers `x` and `cx` it names
are not members of the class and are taken as arguments; the fresh `malloc`
blocks are overwritten by the zeroing loops before they are read.  The three
temporaries are then appended entry by entry with `push_back`. -/
def TempScope.dftThreadOperation (L : Libm R) (x : List R) (cx : List (complex_t R))
    (t : TempScope R) : TempScope R :=
  let N := t.nsamples
  let X := (computeDFT_transform L N x cx (List.replicate N.toNat ⟨0, 0⟩)).2
  let spectrum := computeDFT_spectrum L N X (List.replicate N.toNat 0)
  let Pxx := computePSD_loop L N X (List.replicate N.toNat 0)
  (List.range N.toNat).foldl
    (fun t i =>
      { t with
        signalDFT := t.signalDFT ++ [X.getD i ⟨0, 0⟩]
        signalSpectrum := t.signalSpectrum ++ [spectrum.getD i 0]
        signalPSD := t.signalPSD ++ [Pxx.getD i 0] })
    t

/-- The analysis thread over `c` completed passes, each on its own window. -/
def TempScope.dftThreadOperation_cycles (L : Libm R) (t : TempScope R) :
    List (List R × List (complex_t R)) → TempScope R
  | [] => t
  | w :: ws =>
    TempScope.dftThreadOperation_cycles L (TempScope.dftThreadOperation L w.1 w.2 t) ws

end Scope

section Checked

variable {R : Type} [Zero R] [One R] [Add R] [Sub R] [Mul R] [Div R] [Neg R]
  [NatCast R] [IntCast R] [Pow R ℕ]

/-- The constructor `TMP102::TMP102` (TMP102.cpp:23-29) on the three address
fields, each an `unsigned char`: `address = (unsigned char)address`,
`wradd = (address << 1)`, `rdadd = (wradd |= 1)`; the compound assignment
stores its result in `wradd` before that value goes to `rdadd`. -/
def TMP102.new (address : Int) : TMP102 :=
  let address : Nat := (address % 256).toNat
  let wradd : Nat := (address <<< 1) % 256
  let wradd : Nat := (wradd ||| 1) % 256
  let rdadd : Nat := wradd
  { address := address, rdadd := rdadd, wradd := wradd }

/-- A write `a[i] = v` that faults when `i` is outside the buffer. -/
def checked_set {α : Type} (s : List α) (i : Nat) (v : α) : Option (List α) :=
  if i < s.length then some (s.set i v) else none

/-- The loops of main.cpp:94-100 run with every array access checked against
the length of its buffer: `none` as soon as a read of `X` or a write of
`spectrum` falls outside. -/
def computeDFT_spectrum_checked (L : Libm R) (N : Int) (X : List (complex_t R))
    (spectrum : List R) : Option (List R) :=
  ((List.range N.toNat).foldlM (fun s n => checked_set s n 0) spectrum).bind fun spectrum =>
    (List.range (derivation_passes N)).foldlM
      (fun s n =>
        (X[n + 1]?).bind fun x1 =>
          (checked_set s (2 * n) (complex_norm L x1)).bind fun s =>
            (X[n + 2]?).bind fun x2 =>
              (X[n + 1]?).bind fun x1 =>
                checked_set s (2 * n + 1)
                  ((complex_norm L x2 + complex_norm L x1) / 2))
      spectrum

/-- The loops of main.cpp:107-112 run with every array access checked against
the length of its buffer. -/
def computePSD_loop_checked (L : Libm R) (N : Int) (X : List (complex_t R))
    (Pxx : List R) : Option (List R) :=
  ((List.range N.toNat).foldlM (fun p n => checked_set p n 0) Pxx).bind fun Pxx =>
    (List.range (derivation_passes N)).foldlM
      (fun p n =>
        (X[n + 1]?).bind fun x1 =>
          (checked_set p (2 * n) (20 * L.log10 (complex_norm L x1 ^ 2))).bind fun p =>
            (X[n + 2]?).bind fun x2 =>
              (X[n + 1]?).bind fun x1 =>
                checked_set p (2 * n + 1)
                  (20 * L.log10 (((complex_norm L x2 + complex_norm L x1) / 2) ^ 2)))
      Pxx

end Checked

/-! ## The arithmetic of `float`: IEEE 754 binary32 -/

/-- The values of the C type `float` on the target (IEEE 754 binary32): the
finite values, as rationals, the two infinities and NaN.  The two zeros are
identified (they compare equal in C).  Equality of two values is equality in
this type; the `==` of C differs from it on NaN only, which it finds unequal
to itself. -/
inductive Binary32 where
  | finite (value : ℚ)
  | infinite (negative : Bool)
  | nan
deriving DecidableEq

namespace Binary32

/-- The exponent of the binade of `a ≥ 0`: the largest `e` in `-126 .. 127`
with `2^e ≤ a`, and `-126` when there is none (the subnormal range). -/
def exponent (a : ℚ) : ℤ :=
  (List.range 254).foldl
    (fun e i => if (2 : ℚ) ^ ((i : ℤ) - 126) ≤ a then (i : ℤ) - 126 else e) (-126)

/-- The integer nearest to `q ≥ 0`, the even one of the two at a tie. -/
def round_half_even (q : ℚ) : ℤ :=
  if q - ⌊q⌋ < 1 / 2 then ⌊q⌋
  else if 1 / 2 < q - ⌊q⌋ then ⌊q⌋ + 1
  else if ⌊q⌋ % 2 = 0 then ⌊q⌋ else ⌊q⌋ + 1

/-- Rounding of an exact result to binary32, to nearest with ties to even: the
magnitude keeps 24 significant bits (it becomes a multiple of `2^(e-23)` in the
binade `e`, of `2^-149` in the subnormal range), and the result is an infinity
when the rounded magnitude reaches `2^128`. -/
def round (q : ℚ) : Binary32 :=
  let quantum : ℚ := 2 ^ (exponent |q| - 23)
  let r : ℚ := (round_half_even (|q| / quantum) : ℚ) * quantum
  if 2 ^ 128 ≤ r then infinite (decide (q < 0))
  else finite (if q < 0 then -r else r)

/-- The rational `q` is a binary32 value: rounding leaves it as it is. -/
def representable (q : ℚ) : Prop := round q = finite q

instance (q : ℚ) : Decidable (representable q) :=
  inferInstanceAs (Decidable (round q = finite q))

/-- Unary minus. -/
def neg : Binary32 → Binary32
  | finite a => finite (-a)
  | infinite s => infinite (!s)
  | nan => nan

/-- The sum `a + b` of two `float`s. -/
def add : Binary32 → Binary32 → Binary32
  | finite a, finite b => round (a + b)
  | finite _, infinite t => infinite t
  | infinite s, finite _ => infinite s
  | infinite s, infinite t => if s = t then infinite s else nan
  | _, _ => nan

/-- The difference `a - b` of two `float`s. -/
def sub : Binary32 → Binary32 → Binary32
  | finite a, finite b => round (a - b)
  | finite _, infinite t => infinite (!t)
  | infinite s, finite _ => infinite s
  | infinite s, infinite t => if s = t then nan else infinite s
  | _, _ => nan

/-- The product `a * b` of two `float`s. -/
def mul : Binary32 → Binary32 → Binary32
  | finite a, finite b => round (a * b)
  | finite a, infinite t => if a = 0 then nan else infinite (xor (decide (a < 0)) t)
  | infinite s, finite b => if b = 0 then nan else infinite (xor s (decide (b < 0)))
  | infinite s, infinite t => infinite (xor s t)
  | _, _ => nan

/-- The quotient `a / b` of two `float`s.  A zero divisor is taken as `+0`,
the one place where the sign of a zero would show. -/
def div : Binary32 → Binary32 → Binary32
  | finite a, finite b =>
    if b = 0 then (if a = 0 then nan else infinite (decide (a < 0))) else round (a / b)
  | finite _, infinite _ => finite 0
  | infinite s, finite b => infinite (xor s (decide (b < 0)))
  | _, _ => nan

/-- The power `pow(a, n)` for a natural exponent, by repeated multiplication. -/
def pow (a : Binary32) : ℕ → Binary32
  | 0 => finite 1
  | n + 1 => mul (pow a n) a

instance : Zero Binary32 := ⟨finite 0⟩

instance : One Binary32 := ⟨finite 1⟩

instance : Neg Binary32 := ⟨neg⟩

instance : Add Binary32 := ⟨add⟩

instance : Sub Binary32 := ⟨sub⟩

instance : Mul Binary32 := ⟨mul⟩

instance : Div Binary32 := ⟨div⟩

instance : Pow Binary32 ℕ := ⟨pow⟩

instance : NatCast Binary32 := ⟨fun n => round n⟩

instance : IntCast Binary32 := ⟨fun z => round z⟩

end Binary32

/-- What the statements in binary32 ask of `math.h`: `exp`, `cos` and `sin`
return their exact values at zero, and `M_PI` is the `float` nearest to π,
`13176795 · 2^-22`. -/
def Libm.exact_at_zero (L : Libm Binary32) : Prop :=
  L.exp 0 = 1 ∧ L.cos 0 = 1 ∧ L.sin 0 = 0 ∧
    L.M_PI = Binary32.finite (13176795 / 4194304)

/-- The exact values of the `float` operations that
`complex_div(complex_mul(a, b), b)` performs on `a = (a1, a2)` and
`b = (b1, b2)`, after the two inputs `a1`, `a2`: the six of the product
`a * b = (p, q)`, the negation in `complex_conj(b)`, the six of the numerator
`(p, q) * conj b` and the three of the denominator's real part. -/
def complex_div_mul_values (a1 a2 b1 b2 : ℚ) : List ℚ :=
  let p := a1 * b1 - a2 * b2
  let q := a1 * b2 + a2 * b1
  [a1, a2,
    a1 * b1, a2 * b2, p, a1 * b2, a2 * b1, q,
    -b2,
    p * b1, q * -b2, p * b1 - q * -b2, p * -b2, q * b1, p * -b2 + q * b1,
    b1 * b1, b2 * -b2, b1 * b1 - b2 * -b2]

/-! ## Complex arithmetic -/

section ComplexFacts

variable {R : Type} [Field R]

/-- The real part of `b * conj b` is `b.real² + b.imag²`. -/
theorem complex_mul_conj_real (b : complex_t R) :
    (complex_mul b (complex_conj b)).real = b.real ^ 2 + b.imag ^ 2 := by
  simp only [complex_mul, complex_conj]
  ring

/-- A nonzero modulus means a nonzero denominator term, as soon as `sqrt 0 = 0`. -/
theorem denominator_ne_zero_of_norm_ne_zero (L : Libm R) (h0 : L.sqrt 0 = 0)
    (b : complex_t R) (hb : complex_norm L b ≠ 0) :
    b.real ^ 2 + b.imag ^ 2 ≠ 0 := by
  intro h
  apply hb
  simp only [complex_norm, h, h0]

/-- The quotient computed by `complex_div`, written out. -/
theorem complex_div_eq (a b : complex_t R) :
    complex_div a b =
      ⟨(a.real * b.real + a.imag * b.imag) / (b.real ^ 2 + b.imag ^ 2),
        (a.imag * b.real - a.real * b.imag) / (b.real ^ 2 + b.imag ^ 2)⟩ := by
  have hd := complex_mul_conj_real b
  simp only [complex_div, hd]
  ext
  · simp only [complex_mul, complex_conj]; ring
  · simp only [complex_mul, complex_conj]; ring

end ComplexFacts

/-! ## Counted loops over buffers -/

section Loops

variable {α : Type}

theorem set_getD_self (s : List α) (k : Nat) (d : α) : s.set k (s.getD k d) = s := by
  apply List.ext_getElem?
  intro j
  rw [List.getElem?_set, List.getD_eq_getElem?_getD]
  by_cases hkj : k = j
  · subst hkj
    by_cases hk : k < s.length
    · simp [hk, List.getElem?_eq_getElem hk]
    · simp [hk, List.getElem?_eq_none (Nat.le_of_not_lt hk)]
  · simp [hkj]

theorem length_foldl_set (ns : List Nat) (pos : Nat → Nat) (val : List α → Nat → α) (s : List α) :
    (ns.foldl (fun s n => s.set (pos n) (val s n)) s).length = s.length := by
  induction ns generalizing s with
  | nil => rfl
  | cons n ns ih => rw [List.foldl_cons, ih, List.length_set]

/-- A loop `for n < m: s[n] = h n s[n]` rewrites each of its positions once. -/
theorem getElem?_foldl_range_set (h : Nat → α → α) (d : α) (m : Nat) (s : List α) (j : Nat) :
    ((List.range m).foldl (fun s n => s.set n (h n (s.getD n d))) s)[j]? =
      if j < m then (s[j]?).map (h j) else s[j]? := by
  induction m with
  | zero => simp
  | succ m ih =>
    have hlen := length_foldl_set (List.range m) (fun n => n)
      (fun s n => h n (s.getD n d)) s
    rw [List.range_succ, List.foldl_append, List.foldl_cons, List.foldl_nil,
      List.getElem?_set, hlen]
    by_cases hmj : m = j
    · subst hmj
      rw [if_neg (Nat.lt_irrefl m)] at ih
      rw [List.getD_eq_getElem?_getD, ih, if_pos rfl, if_pos (Nat.lt_succ_self m)]
      by_cases hk : m < s.length
      · rw [if_pos hk, List.getElem?_eq_getElem hk]
        rfl
      · rw [if_neg hk, List.getElem?_eq_none (Nat.le_of_not_lt hk)]
        rfl
    · rw [if_neg hmj, ih]
      have hiff : j < m + 1 ↔ j < m := by omega
      simp only [hiff]

/-- A loop that keeps rewriting one position `k` from its own content leaves
the buffer with the accumulated value at `k`. -/
theorem foldl_set_accumulate {β : Type} (f : α → β → α) (d : α) (k : Nat) (ns : List β)
    (y : List α) :
    ns.foldl (fun y n => y.set k (f (y.getD k d) n)) y =
      y.set k (ns.foldl f (y.getD k d)) := by
  induction ns generalizing y with
  | nil => rw [List.foldl_nil, List.foldl_nil, set_getD_self]
  | cons n ns ih =>
    rw [List.foldl_cons, List.foldl_cons, ih, List.set_set]
    by_cases hk : k < y.length
    · have : (y.set k (f (y.getD k d) n)).getD k d = f (y.getD k d) n := by
        rw [List.getD_eq_getElem?_getD, List.getElem?_set_self hk]
        rfl
      rw [this]
    · rw [List.set_eq_of_length_le (Nat.le_of_not_lt hk),
        List.set_eq_of_length_le (Nat.le_of_not_lt hk)]

theorem length_foldl_set_pair (a b : Nat → α) (ns : List Nat) (s : List α) :
    (ns.foldl (fun s n => (s.set (2 * n) (a n)).set (2 * n + 1) (b n)) s).length =
      s.length := by
  induction ns generalizing s with
  | nil => rfl
  | cons n ns ih => rw [List.foldl_cons, ih, List.length_set, List.length_set]

/-- A loop `for n < m: s[2n] = a n; s[2n+1] = b n` writes the first `2m`
positions (those inside the buffer) and nothing else. -/
theorem getElem?_foldl_range_set_pair (a b : Nat → α) (m : Nat) (s : List α) (j : Nat) :
    ((List.range m).foldl (fun s n => (s.set (2 * n) (a n)).set (2 * n + 1) (b n)) s)[j]? =
      if j < 2 * m then
        (if j < s.length then some (if j % 2 = 0 then a (j / 2) else b (j / 2)) else none)
      else s[j]? := by
  induction m with
  | zero => simp
  | succ m ih =>
    have hlen := length_foldl_set_pair a b (List.range m) s
    rw [List.range_succ, List.foldl_append, List.foldl_cons, List.foldl_nil,
      List.getElem?_set, List.length_set, hlen, List.getElem?_set, hlen, ih]
    by_cases h1 : 2 * m + 1 = j
    · subst h1
      have e1 : (2 * m + 1) % 2 ≠ 0 := by omega
      have e2 : (2 * m + 1) / 2 = m := by omega
      have e3 : 2 * m + 1 < 2 * (m + 1) := by omega
      simp [e1, e2, e3]
    · by_cases h2 : 2 * m = j
      · subst h2
        have e3 : 2 * m < 2 * (m + 1) := by omega
        simp [e3]
      · have hiff : j < 2 * (m + 1) ↔ j < 2 * m := by omega
        simp only [if_neg h1, if_neg h2, hiff]

end Loops

/-! ## Twiddle factors -/

section Twiddle

/-- The `N` twiddle factors of a bin `0 < k < N` sum to zero. -/
theorem geom_twiddle_sum (N k : Nat) (hk0 : 0 < k) (hkN : k < N) :
    ∑ n in Finset.range N, Complex.exp (((-2 * Real.pi * k * n / N : ℝ) : ℂ) * Complex.I) = 0 := by
  have hN0 : (N : ℝ) ≠ 0 := by
    have : 0 < N := by omega
    exact_mod_cast this.ne'
  have hNC : (N : ℂ) ≠ 0 := by exact_mod_cast hN0
  set ζ : ℂ := Complex.exp (((-2 * Real.pi * k / N : ℝ) : ℂ) * Complex.I) with hζ
  have hpow : ∀ n : ℕ, Complex.exp (((-2 * Real.pi * k * n / N : ℝ) : ℂ) * Complex.I) = ζ ^ n := by
    intro n
    rw [hζ, ← Complex.exp_nat_mul]
    congr 1
    push_cast
    ring
  have hone : ζ ^ N = 1 := by
    rw [hζ, ← Complex.exp_nat_mul]
    have : (N : ℂ) * (((-2 * Real.pi * k / N : ℝ) : ℂ) * Complex.I) =
        ((-(k : ℤ) : ℤ) : ℂ) * (2 * Real.pi * Complex.I) := by
      push_cast
      field_simp
      ring
    rw [this]
    exact Complex.exp_int_mul_two_pi_mul_I _
  have hne : ζ ≠ 1 := by
    intro h
    rw [hζ, Complex.exp_eq_one_iff] at h
    obtain ⟨m, hm⟩ := h
    have h2 : ((-2 * Real.pi * k / N : ℝ) : ℂ) = ((m * (2 * Real.pi) : ℝ) : ℂ) := by
      have hI : Complex.I ≠ 0 := Complex.I_ne_zero
      apply mul_right_cancel₀ hI
      rw [hm]
      push_cast
      ring
    have h3 : (-2 * Real.pi * k / N : ℝ) = m * (2 * Real.pi) := Complex.ofReal_injective h2
    have hpi : Real.pi ≠ 0 := Real.pi_ne_zero
    have h4 : -(k : ℝ) = m * N := by
      field_simp at h3
      have : (2 * Real.pi) * (-(k:ℝ)) = (2 * Real.pi) * (m * N) := by linarith
      exact mul_left_cancel₀ (by positivity) this
    have h5 : -(k : ℤ) = m * N := by exact_mod_cast h4
    have hdvd : (N : ℤ) ∣ (k : ℤ) := ⟨-m, by linarith⟩
    have := Int.le_of_dvd (by exact_mod_cast hk0) hdvd
    omega
  have hgeom := mul_geom_sum ζ N
  rw [hone, sub_self] at hgeom
  have hz : ∑ i in Finset.range N, ζ ^ i = 0 := by
    rcases mul_eq_zero.mp hgeom with h | h
    · exact absurd (sub_eq_zero.mp h) hne
    · exact h
  rw [← hz]
  exact Finset.sum_congr rfl (fun n _ => hpow n)

/-- Real parts of the twiddle factors of a bin `0 < k < N` sum to zero. -/
theorem sum_cos_twiddle (N k : Nat) (hk0 : 0 < k) (hkN : k < N) :
    ∑ n in Finset.range N, Real.cos (-2 * Real.pi * k * n / N) = 0 := by
  have h := congrArg Complex.re (geom_twiddle_sum N k hk0 hkN)
  rw [Complex.re_sum, Complex.zero_re] at h
  rw [← h]
  exact Finset.sum_congr rfl (fun n _ => (Complex.exp_ofReal_mul_I_re _).symm)

/-- Imaginary parts of the twiddle factors of a bin `0 < k < N` sum to zero. -/
theorem sum_sin_twiddle (N k : Nat) (hk0 : 0 < k) (hkN : k < N) :
    ∑ n in Finset.range N, Real.sin (-2 * Real.pi * k * n / N) = 0 := by
  have h := congrArg Complex.im (geom_twiddle_sum N k hk0 hkN)
  rw [Complex.im_sum, Complex.zero_im] at h
  rw [← h]
  exact Finset.sum_congr rfl (fun n _ => (Complex.exp_ofReal_mul_I_im _).symm)

end Twiddle

/-! ## The transform and the derivation loops -/

section AnalysisFacts

variable {R : Type} [Field R]

theorem foldl_complex_add (t : Nat → complex_t R) (ns : List Nat) (a : complex_t R) :
    ns.foldl (fun acc n => complex_add acc (t n)) a =
      complex_add a (ns.foldl (fun acc n => complex_add acc (t n)) ⟨0, 0⟩) := by
  induction ns generalizing a with
  | nil => ext <;> simp [complex_add]
  | cons n ns ih =>
    rw [List.foldl_cons, List.foldl_cons, ih, ih (complex_add ⟨0, 0⟩ (t n))]
    ext <;> simp [complex_add, add_assoc]

theorem foldl_complex_add_real (t : Nat → complex_t R) (m : Nat) (a : complex_t R) :
    ((List.range m).foldl (fun acc n => complex_add acc (t n)) a).real =
      a.real + ∑ n in Finset.range m, (t n).real := by
  induction m with
  | zero => simp
  | succ m ih =>
    rw [List.range_succ, List.foldl_append, List.foldl_cons, List.foldl_nil,
      Finset.sum_range_succ, ← add_assoc, ← ih]
    rfl

theorem foldl_complex_add_imag (t : Nat → complex_t R) (m : Nat) (a : complex_t R) :
    ((List.range m).foldl (fun acc n => complex_add acc (t n)) a).imag =
      a.imag + ∑ n in Finset.range m, (t n).imag := by
  induction m with
  | zero => simp
  | succ m ih =>
    rw [List.range_succ, List.foldl_append, List.foldl_cons, List.foldl_nil,
      Finset.sum_range_succ, ← add_assoc, ← ih]
    rfl

theorem dft_inner_eq (L : Libm R) (x : List (complex_t R)) (N : Int)
    (y : List (complex_t R)) (k : Nat) :
    dft_inner L x N y k =
      y.set k (complex_add (y.getD k ⟨0, 0⟩) (dft_coefficient L x N k)) := by
  unfold dft_inner dft_coefficient
  rw [foldl_set_accumulate (fun acc n => complex_add acc (dft_term L x N k n)),
    foldl_complex_add]

theorem dft_length (L : Libm R) (y x : List (complex_t R)) (N : Int) :
    (dft L y x N).length = y.length := by
  unfold dft
  have h : dft_inner L x N = fun y k =>
      y.set k (complex_add (y.getD k ⟨0, 0⟩) (dft_coefficient L x N k)) := by
    funext y k
    exact dft_inner_eq L x N y k
  rw [h]
  exact length_foldl_set _ (fun k => k) _ y

theorem dft_getElem? (L : Libm R) (y x : List (complex_t R)) (N : Int) (j : Nat) :
    (dft L y x N)[j]? =
      if j < N.toNat then
        (y[j]?).map (fun v => complex_add v (dft_coefficient L x N j))
      else y[j]? := by
  unfold dft
  have h : dft_inner L x N = fun y k =>
      y.set k (complex_add (y.getD k ⟨0, 0⟩) (dft_coefficient L x N k)) := by
    funext y k
    exact dft_inner_eq L x N y k
  rw [h]
  exact getElem?_foldl_range_set
    (fun k v => complex_add v (dft_coefficient L x N k)) ⟨0, 0⟩ N.toNat y j

theorem dft_getD (L : Libm R) (y x : List (complex_t R)) (N : Int) (j : Nat)
    (hj : j < N.toNat) (hy : j < y.length) :
    (dft L y x N).getD j ⟨0, 0⟩ =
      complex_add (y.getD j ⟨0, 0⟩) (dft_coefficient L x N j) := by
  rw [List.getD_eq_getElem?_getD, dft_getElem?, if_pos hj, List.getD_eq_getElem?_getD,
    List.getElem?_eq_getElem hy]
  rfl

/-- Real part of a coefficient as a finite sum. -/
theorem dft_coefficient_real (L : Libm R) (x : List (complex_t R)) (N : Int) (k : Nat) :
    (dft_coefficient L x N k).real =
      ∑ n in Finset.range N.toNat, (dft_term L x N k n).real := by
  unfold dft_coefficient
  rw [foldl_complex_add_real, zero_add]

/-- Imaginary part of a coefficient as a finite sum. -/
theorem dft_coefficient_imag (L : Libm R) (x : List (complex_t R)) (N : Int) (k : Nat) :
    (dft_coefficient L x N k).imag =
      ∑ n in Finset.range N.toNat, (dft_term L x N k n).imag := by
  unfold dft_coefficient
  rw [foldl_complex_add_imag, zero_add]

/-- Into a zeroed buffer, `dft` leaves the `k`-th coefficient at position `k`. -/
theorem dft_zeroed_getD (L : Libm R) (x : List (complex_t R)) (N k : Nat) (hk : k < N) :
    (dft L (List.replicate N ⟨0, 0⟩) x N).getD k ⟨0, 0⟩ = dft_coefficient L x N k := by
  rw [dft_getD L _ x N k (by simpa using hk) (by simpa using hk)]
  have : (List.replicate N (⟨0, 0⟩ : complex_t R)).getD k ⟨0, 0⟩ = ⟨0, 0⟩ := by
    rw [List.getD_eq_getElem?_getD, List.getElem?_replicate, if_pos hk]
    rfl
  rw [this]
  ext <;> simp [complex_add]

/-- Reading the elementwise sum of two signals of the same length. -/
theorem getD_zipWith_complex_add (x y : List (complex_t R)) (h : x.length = y.length)
    (n : Nat) :
    (List.zipWith complex_add x y).getD n ⟨0, 0⟩ =
      complex_add (x.getD n ⟨0, 0⟩) (y.getD n ⟨0, 0⟩) := by
  simp only [List.getD_eq_getElem?_getD, List.getElem?_zipWith]
  by_cases hn : n < x.length
  · have hn2 : n < y.length := h ▸ hn
    simp [List.getElem?_eq_getElem hn, List.getElem?_eq_getElem hn2]
  · have hn2 : ¬ n < y.length := h ▸ hn
    rw [List.getElem?_eq_none (Nat.le_of_not_lt hn), List.getElem?_eq_none (Nat.le_of_not_lt hn2)]
    ext <;> simp [complex_add]

/-- A term of the transform of an elementwise sum. -/
theorem dft_term_add (L : Libm R) (x y : List (complex_t R)) (h : x.length = y.length)
    (N : Int) (k n : Nat) :
    dft_term L (List.zipWith complex_add x y) N k n =
      complex_add (dft_term L x N k n) (dft_term L y N k n) := by
  unfold dft_term
  rw [getD_zipWith_complex_add x y h]
  ext
  · simp only [complex_add, complex_mul]; ring
  · simp only [complex_add, complex_mul]; ring

/-- A coefficient of the transform of an elementwise sum. -/
theorem dft_coefficient_add (L : Libm R) (x y : List (complex_t R)) (h : x.length = y.length)
    (N : Int) (k : Nat) :
    dft_coefficient L (List.zipWith complex_add x y) N k =
      complex_add (dft_coefficient L x N k) (dft_coefficient L y N k) := by
  ext
  · simp only [complex_add, dft_coefficient_real, dft_term_add L x y h,
      Finset.sum_add_distrib]
  · simp only [complex_add, dft_coefficient_imag, dft_term_add L x y h,
      Finset.sum_add_distrib]

theorem computeDFT_transform_constant_cx (L : Libm ℝ) (N : Nat) (A : ℝ)
    (cx X : List (complex_t ℝ)) (hcx : cx.length = N) (n : Nat) (hn : n < N) :
    (computeDFT_transform L N (List.replicate N A) cx X).1.getD n ⟨0, 0⟩ = ⟨A, 0⟩ := by
  unfold computeDFT_transform
  simp only [Int.toNat_ofNat]
  rw [List.getD_eq_getElem?_getD,
    getElem?_foldl_range_set (fun n _ => complex_num ((List.replicate N A).getD n 0) 0)
      ⟨0, 0⟩ N cx n,
    if_pos hn, List.getElem?_eq_getElem (hcx ▸ hn)]
  simp [complex_num, List.getD_eq_getElem?_getD, List.getElem?_replicate, hn]

theorem computeDFT_transform_getD (L : Libm ℝ) (N : Nat) (x : List ℝ)
    (cx X : List (complex_t ℝ)) (hX : X.length = N) (k : Nat) (hk : k < N) :
    (computeDFT_transform L N x cx X).2.getD k ⟨0, 0⟩ =
      dft_coefficient L (computeDFT_transform L N x cx X).1 N k := by
  have hz : (List.range N).foldl (fun X n => X.set n (complex_num 0 0)) X =
      List.replicate N (⟨0, 0⟩ : complex_t ℝ) := by
    apply List.ext_getElem?
    intro j
    rw [getElem?_foldl_range_set (fun _ _ => complex_num (0 : ℝ) 0) ⟨0, 0⟩ N X j,
      List.getElem?_replicate]
    by_cases hj : j < N
    · simp [hj, List.getElem?_eq_getElem (hX ▸ hj), complex_num]
    · simp [hj, List.getElem?_eq_none (hX ▸ Nat.le_of_not_lt hj)]
  unfold computeDFT_transform
  simp only [Int.toNat_ofNat, hz]
  exact dft_zeroed_getD L _ N k hk

theorem dft_term_constant (L : Libm ℝ) (hL : L.exact) (N : Nat) (A : ℝ)
    (cx : List (complex_t ℝ)) (k n : Nat) (hn : cx.getD n ⟨0, 0⟩ = ⟨A, 0⟩) :
    dft_term L cx N k n =
      ⟨A * Real.cos (-2 * Real.pi * k * n / N), A * Real.sin (-2 * Real.pi * k * n / N)⟩ := by
  obtain ⟨he, hc, hs, -, -, -, hp⟩ := hL
  unfold dft_term dft_kn
  rw [hn]
  ext
  · simp [complex_mul, complex_exp, complex_num, he, hc, hs, hp]
  · simp [complex_mul, complex_exp, complex_num, he, hc, hs, hp]

/-- For a window size `N ≥ 0` the derivation loops make `N / 2 - 1` passes. -/
theorem derivation_passes_natCast (N : Nat) : derivation_passes (N : Int) = N / 2 - 1 := by
  unfold derivation_passes
  rw [Int.tdiv_eq_ediv (by omega) (by omega)]
  omega

theorem foldl_set_zero {α : Type} (c : α) (N : Nat) (s : List α) (hs : s.length = N) :
    (List.range N).foldl (fun s n => s.set n c) s = List.replicate N c := by
  apply List.ext_getElem?
  intro j
  rw [getElem?_foldl_range_set (fun _ _ => c) c N s j, List.getElem?_replicate]
  by_cases hj : j < N
  · simp [hj, List.getElem?_eq_getElem (hs ▸ hj)]
  · simp [hj, List.getElem?_eq_none (hs ▸ Nat.le_of_not_lt hj)]

theorem getD_pair_loop {F : Type} [Zero F] (a b : Nat → F) (N : Nat) (s : List F)
    (hs : s.length = N) (j : Nat) :
    ((List.range (N / 2 - 1)).foldl
        (fun s n => (s.set (2 * n) (a n)).set (2 * n + 1) (b n))
        ((List.range N).foldl (fun s n => s.set n 0) s)).getD j 0 =
      if j < 2 * (N / 2 - 1) then (if j % 2 = 0 then a (j / 2) else b (j / 2)) else 0 := by
  rw [foldl_set_zero 0 N s hs, List.getD_eq_getElem?_getD, getElem?_foldl_range_set_pair,
    List.length_replicate, List.getElem?_replicate]
  by_cases hj : j < 2 * (N / 2 - 1)
  · have hjN : j < N := by omega
    simp [hj, hjN]
  · by_cases hjN : j < N
    · simp [hj, hjN]
    · simp [hj, hjN]

theorem computeDFT_spectrum_getD (L : Libm R) (N : Nat) (X : List (complex_t R))
    (spectrum : List R) (hs : spectrum.length = N) (j : Nat) :
    (computeDFT_spectrum L N X spectrum).getD j 0 =
      if j < 2 * (N / 2 - 1) then
        (if j % 2 = 0 then complex_norm L (X.getD (j / 2 + 1) ⟨0, 0⟩)
         else (complex_norm L (X.getD (j / 2 + 2) ⟨0, 0⟩)
                + complex_norm L (X.getD (j / 2 + 1) ⟨0, 0⟩)) / 2)
      else 0 := by
  unfold computeDFT_spectrum
  simp only [derivation_passes_natCast, Int.toNat_ofNat]
  exact getD_pair_loop (fun n => complex_norm L (X.getD (n + 1) ⟨0, 0⟩))
    (fun n => (complex_norm L (X.getD (n + 2) ⟨0, 0⟩)
                + complex_norm L (X.getD (n + 1) ⟨0, 0⟩)) / 2) N spectrum hs j

theorem computeDFT_spectrum_length (L : Libm R) (N : Int) (X : List (complex_t R))
    (spectrum : List R) :
    (computeDFT_spectrum L N X spectrum).length = spectrum.length := by
  unfold computeDFT_spectrum
  simp only []
  rw [length_foldl_set_pair, length_foldl_set _ (fun n => n) (fun _ _ => 0)]

theorem computePSD_loop_getD {F : Type} [Zero F] [Add F] [Mul F] [Div F] [NatCast F]
    [Pow F ℕ] (L : Libm F) (N : Nat) (X : List (complex_t F))
    (Pxx : List F) (hP : Pxx.length = N) (j : Nat) :
    (computePSD_loop L N X Pxx).getD j 0 =
      if j < 2 * (N / 2 - 1) then
        (if j % 2 = 0 then 20 * L.log10 (complex_norm L (X.getD (j / 2 + 1) ⟨0, 0⟩) ^ 2)
         else 20 * L.log10
          (((complex_norm L (X.getD (j / 2 + 2) ⟨0, 0⟩)
                + complex_norm L (X.getD (j / 2 + 1) ⟨0, 0⟩)) / 2) ^ 2))
      else 0 := by
  unfold computePSD_loop
  simp only [derivation_passes_natCast, Int.toNat_ofNat]
  exact getD_pair_loop
    (fun n => 20 * L.log10 (complex_norm L (X.getD (n + 1) ⟨0, 0⟩) ^ 2))
    (fun n => 20 * L.log10
      (((complex_norm L (X.getD (n + 2) ⟨0, 0⟩)
          + complex_norm L (X.getD (n + 1) ⟨0, 0⟩)) / 2) ^ 2)) N Pxx hP j

end AnalysisFacts


section MoreFacts

variable {R : Type} [Field R]

end MoreFacts


section SensorFacts

set_option maxRecDepth 1000000 in
/-- The `switch` of `TMP102::init` on every byte: bits 7..6 become the rate,
the low six bits stay, the result is a byte. -/
theorem rate_bits_spec_aux : ∀ d : Fin 256,
    (TMP102.rate_bits 0 d) >>> 6 = 0 ∧ (TMP102.rate_bits 1 d) >>> 6 = 1 ∧
    (TMP102.rate_bits 2 d) >>> 6 = 2 ∧ (TMP102.rate_bits 3 d) >>> 6 = 3 ∧
    (TMP102.rate_bits 0 d) % 64 = d % 64 ∧ (TMP102.rate_bits 1 d) % 64 = d % 64 ∧
    (TMP102.rate_bits 2 d) % 64 = d % 64 ∧ (TMP102.rate_bits 3 d) % 64 = d % 64 ∧
    (TMP102.rate_bits 0 d) < 256 ∧ (TMP102.rate_bits 1 d) < 256 ∧
    (TMP102.rate_bits 2 d) < 256 ∧ (TMP102.rate_bits 3 d) < 256 := by
  decide

end SensorFacts


section AcquisitionFacts

variable {R : Type} [Field R]

/-- One pass writes its sample at slot `n`; the analysis leaves `x` alone. -/
theorem tmp_daq_tick_x (L : Libm R) (N : Nat) (temp : R) (s : DaqState R) :
    (tmp_daq_tick L N temp s).1.g.x = s.g.x.set s.n temp := by
  unfold tmp_daq_tick
  by_cases h : s.n + 1 < N
  · simp only [if_pos h]
  · simp only [if_neg h]
    rfl

/-- The loop variable after one pass. -/
theorem tmp_daq_tick_n (L : Libm R) (N : Nat) (temp : R) (s : DaqState R) :
    (tmp_daq_tick L N temp s).1.n = if s.n + 1 < N then s.n + 1 else 0 := by
  unfold tmp_daq_tick
  by_cases h : s.n + 1 < N
  · simp only [if_pos h]
  · simp only [if_neg h]

/-- The analysis runs after a pass exactly when the `for` loop ends with it. -/
theorem tmp_daq_tick_flag (L : Libm R) (N : Nat) (temp : R) (s : DaqState R) :
    (tmp_daq_tick L N temp s).2 = decide (¬ s.n + 1 < N) := by
  unfold tmp_daq_tick
  by_cases h : s.n + 1 < N
  · simp [h]
  · simp [h]

/-- Running one more pass after a sequence of passes. -/
theorem tmp_daq_ticks_append (L : Libm R) (N : Nat) (temps : List R) (v : R)
    (s : DaqState R) :
    tmp_daq_ticks L N (temps ++ [v]) s =
      ((tmp_daq_tick L N v (tmp_daq_ticks L N temps s).1).1,
        (tmp_daq_ticks L N temps s).2 ++
          [(tmp_daq_tick L N v (tmp_daq_ticks L N temps s).1).2]) := by
  unfold tmp_daq_ticks
  rw [List.foldl_append, List.foldl_cons, List.foldl_nil]

/-- The successor of a residue, as the loop variable computes it. -/
theorem succ_mod_eq (w N : Nat) (hN : 0 < N) :
    (if w % N + 1 < N then w % N + 1 else 0) = (w + 1) % N := by
  have hlt := Nat.mod_lt w hN
  have h1 := Nat.div_add_mod w N
  by_cases h : w % N + 1 < N
  · rw [if_pos h]
    have : w + 1 = w % N + 1 + N * (w / N) := by omega
    rw [this, Nat.add_mul_mod_self_left, Nat.mod_eq_of_lt h]
  · rw [if_neg h]
    have : w + 1 = N * (w / N + 1) := by
      have : w % N + 1 = N := by omega
      rw [Nat.mul_add, Nat.mul_one]; omega
    rw [this, Nat.mul_mod_right]

/-- Two write numbers less than a window apart go to different slots. -/
theorem mod_ne_of_lt_window (t w N : Nat) (h1 : t < w) (h2 : w < t + N) :
    t % N ≠ w % N := by
  intro h
  have hz : (w - t) % N = 0 := Nat.sub_mod_eq_zero_of_mod_eq h.symm
  have hd : N ∣ w - t := Nat.dvd_of_mod_eq_zero hz
  have := Nat.le_of_dvd (by omega) hd
  omega

/-- The state of `tmp_daq` after `w` passes from the start of a window: the
loop variable is `w mod N`, the window keeps its `N` slots, each of the last
`N` samples sits in the slot of its number modulo `N`, and the analysis ran
after exactly the passes whose number is a multiple of `N`. -/
theorem tmp_daq_ticks_invariant (L : Libm R) (N : Nat) (hN : 0 < N) (s : DaqState R)
    (hn : s.n = 0) (hx : s.g.x.length = N) (temps : List R) :
    (tmp_daq_ticks L N temps s).1.n = temps.length % N ∧
      (tmp_daq_ticks L N temps s).1.g.x.length = N ∧
      (∀ t, t < temps.length → temps.length ≤ t + N →
        (tmp_daq_ticks L N temps s).1.g.x.getD (t % N) 0 = temps.getD t 0) ∧
      (tmp_daq_ticks L N temps s).2 =
        (List.range temps.length).map (fun i => decide ((i + 1) % N = 0)) := by
  induction temps using List.reverseRecOn with
  | nil =>
    refine ⟨?_, ?_, ?_, ?_⟩
    · simp [tmp_daq_ticks, hn]
    · simpa [tmp_daq_ticks] using hx
    · intro t ht
      simp at ht
    · simp [tmp_daq_ticks]
  | append_singleton temps v ih =>
    obtain ⟨ihn, ihlen, ihx, ihf⟩ := ih
    rw [tmp_daq_ticks_append]
    simp only [List.length_append, List.length_singleton]
    refine ⟨?_, ?_, ?_, ?_⟩
    · rw [tmp_daq_tick_n, ihn]
      exact succ_mod_eq temps.length N hN
    · rw [tmp_daq_tick_x, List.length_set, ihlen]
    · intro t ht hwin
      rw [tmp_daq_tick_x, ihn, List.getD_eq_getElem?_getD, List.getElem?_set]
      by_cases htw : t = temps.length
      · subst htw
        have hlt : temps.length % N < (tmp_daq_ticks L N temps s).1.g.x.length := by
          rw [ihlen]
          exact Nat.mod_lt _ hN
        rw [if_pos rfl, if_pos hlt, List.getD_append_right _ _ _ _ (Nat.le_refl _)]
        simp
      · have htlt : t < temps.length := by omega
        have hne : temps.length % N ≠ t % N :=
          (mod_ne_of_lt_window t temps.length N htlt (by omega)).symm
        rw [if_neg hne, ← List.getD_eq_getElem?_getD, ihx t htlt (by omega),
          List.getD_append _ _ _ _ htlt]
    · rw [tmp_daq_tick_flag, ihn, ihf, List.range_succ, List.map_append, List.map_cons,
        List.map_nil]
      congr 2
      have hs := succ_mod_eq temps.length N hN
      have hlt := Nat.mod_lt temps.length hN
      by_cases h : temps.length % N + 1 < N
      · rw [if_pos h] at hs
        have : (temps.length + 1) % N ≠ 0 := by omega
        simp [h, this]
      · rw [if_neg h] at hs
        simp [h, hs.symm]

end AcquisitionFacts


section ScopeFacts

/-- Appending one entry per index grows each published sequence by the number
of indices and leaves `nsamples` alone. -/
theorem push_back_loop_lengths {R : Type} (a : Nat → complex_t R) (b c : Nat → R) (is : List Nat)
    (t : TempScope R) :
    (is.foldl
        (fun t i =>
          { t with
            signalDFT := t.signalDFT ++ [a i]
            signalSpectrum := t.signalSpectrum ++ [b i]
            signalPSD := t.signalPSD ++ [c i] }) t).signalDFT.length =
        t.signalDFT.length + is.length ∧
      (is.foldl
        (fun t i =>
          { t with
            signalDFT := t.signalDFT ++ [a i]
            signalSpectrum := t.signalSpectrum ++ [b i]
            signalPSD := t.signalPSD ++ [c i] }) t).signalSpectrum.length =
        t.signalSpectrum.length + is.length ∧
      (is.foldl
        (fun t i =>
          { t with
            signalDFT := t.signalDFT ++ [a i]
            signalSpectrum := t.signalSpectrum ++ [b i]
            signalPSD := t.signalPSD ++ [c i] }) t).signalPSD.length =
        t.signalPSD.length + is.length ∧
      (is.foldl
        (fun t i =>
          { t with
            signalDFT := t.signalDFT ++ [a i]
            signalSpectrum := t.signalSpectrum ++ [b i]
            signalPSD := t.signalPSD ++ [c i] }) t).nsamples = t.nsamples := by
  induction is generalizing t with
  | nil => simp
  | cons i is ih =>
    rw [List.foldl_cons]
    obtain ⟨h1, h2, h3, h4⟩ := ih
      { t with
        signalDFT := t.signalDFT ++ [a i]
        signalSpectrum := t.signalSpectrum ++ [b i]
        signalPSD := t.signalPSD ++ [c i] }
    refine ⟨?_, ?_, ?_, ?_⟩
    · rw [h1]
      dsimp only
      rw [List.length_append, List.length_singleton, List.length_cons]
      omega
    · rw [h2]
      dsimp only
      rw [List.length_append, List.length_singleton, List.length_cons]
      omega
    · rw [h3]
      dsimp only
      rw [List.length_append, List.length_singleton, List.length_cons]
      omega
    · rw [h4]

variable {R : Type} [Field R]

/-- One pass of the analysis thread grows each published sequence by
`nsamples` entries. -/
theorem dftThreadOperation_lengths (L : Libm R) (x : List R) (cx : List (complex_t R))
    (t : TempScope R) :
    (TempScope.dftThreadOperation L x cx t).signalDFT.length =
        t.signalDFT.length + t.nsamples.toNat ∧
      (TempScope.dftThreadOperation L x cx t).signalSpectrum.length =
        t.signalSpectrum.length + t.nsamples.toNat ∧
      (TempScope.dftThreadOperation L x cx t).signalPSD.length =
        t.signalPSD.length + t.nsamples.toNat ∧
      (TempScope.dftThreadOperation L x cx t).nsamples = t.nsamples := by
  unfold TempScope.dftThreadOperation
  simp only []
  have h := push_back_loop_lengths
    (fun i => ((computeDFT_transform L t.nsamples x cx
      (List.replicate t.nsamples.toNat ⟨0, 0⟩)).2).getD i ⟨0, 0⟩)
    (fun i => (computeDFT_spectrum L t.nsamples
      (computeDFT_transform L t.nsamples x cx (List.replicate t.nsamples.toNat ⟨0, 0⟩)).2
      (List.replicate t.nsamples.toNat 0)).getD i 0)
    (fun i => (computePSD_loop L t.nsamples
      (computeDFT_transform L t.nsamples x cx (List.replicate t.nsamples.toNat ⟨0, 0⟩)).2
      (List.replicate t.nsamples.toNat 0)).getD i 0)
    (List.range t.nsamples.toNat) t
  rw [List.length_range] at h
  exact h

/-- After `c` passes of the analysis thread each published sequence has grown
by `c * nsamples` entries. -/
theorem dftThreadOperation_cycles_lengths (L : Libm R)
    (ws : List (List R × List (complex_t R))) (t : TempScope R) :
    (TempScope.dftThreadOperation_cycles L t ws).signalDFT.length =
        t.signalDFT.length + ws.length * t.nsamples.toNat ∧
      (TempScope.dftThreadOperation_cycles L t ws).signalSpectrum.length =
        t.signalSpectrum.length + ws.length * t.nsamples.toNat ∧
      (TempScope.dftThreadOperation_cycles L t ws).signalPSD.length =
        t.signalPSD.length + ws.length * t.nsamples.toNat ∧
      (TempScope.dftThreadOperation_cycles L t ws).nsamples = t.nsamples := by
  induction ws generalizing t with
  | nil => simp [TempScope.dftThreadOperation_cycles]
  | cons w ws ih =>
    obtain ⟨h1, h2, h3, h4⟩ := dftThreadOperation_lengths L w.1 w.2 t
    obtain ⟨i1, i2, i3, i4⟩ := ih (TempScope.dftThreadOperation L w.1 w.2 t)
    unfold TempScope.dftThreadOperation_cycles
    refine ⟨?_, ?_, ?_, ?_⟩
    · rw [i1, h1, h4, List.length_cons]
      ring
    · rw [i2, h2, h4, List.length_cons]
      ring
    · rw [i3, h3, h4, List.length_cons]
      ring
    · rw [i4, h4]

end ScopeFacts

section CheckedFacts

/-- A checked loop whose every pass succeeds as the unchecked pass does, under
an invariant the passes keep, succeeds with the result of the unchecked loop. -/
theorem foldlM_eq_some_foldl {α β : Type} (g : β → α → Option β) (f : β → α → β)
    (P : β → Prop) (l : List α) (b : β) (hb : P b)
    (h : ∀ b a, a ∈ l → P b → g b a = some (f b a) ∧ P (f b a)) :
    l.foldlM g b = some (l.foldl f b) ∧ P (l.foldl f b) := by
  induction l generalizing b with
  | nil => exact ⟨rfl, hb⟩
  | cons a l ih =>
    obtain ⟨h1, h2⟩ := h b a (List.mem_cons_self a l) hb
    rw [List.foldlM_cons, h1, List.foldl_cons]
    exact ih (f b a) h2 (fun b' a' ha' hb' => h b' a' (List.mem_cons_of_mem a ha') hb')

/-- The zeroing loop over a buffer of `N` entries never leaves it. -/
theorem checked_zero_loop {α : Type} (c : α) (N : Nat) (s : List α) (hs : s.length = N) :
    (List.range N).foldlM (fun s n => checked_set s n c) s =
        some ((List.range N).foldl (fun s n => s.set n c) s) ∧
      ((List.range N).foldl (fun s n => s.set n c) s).length = N := by
  apply foldlM_eq_some_foldl (fun s n => checked_set s n c) (fun s n => s.set n c)
    (fun s => s.length = N) (List.range N) s hs
  intro b a ha hb
  have haN : a < N := List.mem_range.mp ha
  refine ⟨?_, ?_⟩
  · unfold checked_set
    rw [if_pos (hb ▸ haN)]
  · show (b.set a c).length = N
    rw [List.length_set, hb]

/-- The pair-writing loop with its reads of `X`, on buffers of `N` entries,
never leaves them when its passes are `N / 2 - 1`. -/
theorem checked_pair_loop {α β : Type} (d : β) (a : β → α) (b : β → β → α) (N : Nat)
    (X : List β) (hX : X.length = N) (s : List α) (hs : s.length = N) :
    (List.range (N / 2 - 1)).foldlM
        (fun s n =>
          (X[n + 1]?).bind fun x1 =>
            (checked_set s (2 * n) (a x1)).bind fun s =>
              (X[n + 2]?).bind fun x2 =>
                (X[n + 1]?).bind fun x1 => checked_set s (2 * n + 1) (b x2 x1)) s =
      some ((List.range (N / 2 - 1)).foldl
        (fun s n =>
          (s.set (2 * n) (a (X.getD (n + 1) d))).set (2 * n + 1)
            (b (X.getD (n + 2) d) (X.getD (n + 1) d))) s) := by
  refine (foldlM_eq_some_foldl _ _ (fun s => s.length = N) (List.range (N / 2 - 1)) s hs
    ?_).1
  intro t n hn ht
  have hnlt : n < N / 2 - 1 := List.mem_range.mp hn
  have h1 : n + 1 < X.length := by omega
  have h2 : n + 2 < X.length := by omega
  have e1 : X[n + 1]? = some (X.getD (n + 1) d) := by
    rw [List.getD_eq_getElem?_getD, List.getElem?_eq_getElem h1]
    rfl
  have e2 : X[n + 2]? = some (X.getD (n + 2) d) := by
    rw [List.getD_eq_getElem?_getD, List.getElem?_eq_getElem h2]
    rfl
  have w1 : 2 * n < t.length := by omega
  have w2 : 2 * n + 1 < (t.set (2 * n) (a (X.getD (n + 1) d))).length := by
    rw [List.length_set]
    omega
  refine ⟨?_, ?_⟩
  · simp only [e1, e2, Option.some_bind, checked_set, if_pos w1, if_pos w2]
  · show ((t.set (2 * n) (a (X.getD (n + 1) d))).set (2 * n + 1)
        (b (X.getD (n + 2) d) (X.getD (n + 1) d))).length = N
    rw [List.length_set, List.length_set, ht]

/-- The checked loops do fault on a buffer that is too short: with `N = 4` and
an `X` of two entries the read `X[2]` of the pass `n = 0` is outside. -/
theorem computeDFT_spectrum_checked_faults :
    computeDFT_spectrum_checked
        (Libm.mk Real.exp Real.cos Real.sin Real.sqrt (Real.logb 10)
          (fun b a => Complex.arg ⟨a, b⟩) Real.pi) 4
        [⟨1, 0⟩, ⟨1, 0⟩] [7, 7, 7, 7] = none := by
  have hp : derivation_passes (4 : ℤ) = 1 := by decide
  simp [computeDFT_spectrum_checked, checked_set, hp, List.range_succ]

end CheckedFacts

section ReadingFacts

/-- The 12-bit reading `(b0 << 4) | (b1 >> 4)` of two bytes is
`b0 * 16 + b1 / 16`. -/
theorem reading_eq_mul_add (b0 b1 : Nat) (h1 : b1 < 256) :
    (b0 <<< 4) ||| (b1 >>> 4) = b0 * 16 + b1 / 16 := by
  have hlt : b1 / 16 < 2 ^ 4 := by omega
  have h := Nat.mul_add_lt_is_or hlt b0
  rw [Nat.shiftLeft_eq, Nat.shiftRight_eq_div_pow]
  have e : (2 : Nat) ^ 4 = 16 := by norm_num
  rw [e] at h ⊢
  rw [Nat.mul_comm b0 16, h]

/-- The constructor leaves the same value in the write and the read address,
with its low bit set. -/
theorem TMP102_new_same_address (a : Int) :
    (TMP102.new a).wradd = (TMP102.new a).rdadd ∧ (TMP102.new a).wradd % 2 = 1 := by
  refine ⟨rfl, ?_⟩
  unfold TMP102.new
  simp only []
  have hlt : ((a % 256).toNat <<< 1) % 256 ||| 1 < 256 := by
    apply Nat.or_lt_two_pow (n := 8)
    · exact Nat.mod_lt _ (by norm_num)
    · norm_num
  rw [Nat.mod_eq_of_lt hlt]
  have := Nat.or_mod_two_eq_one (a := ((a % 256).toNat <<< 1) % 256) (b := 1)
  exact this.mpr (Or.inr rfl)

end ReadingFacts

/-! ## The transform as a left-to-right sum, in any arithmetic -/

/-- Reading an entry of an elementwise combination of two buffers. -/
theorem getD_zipWith_of_lt {α β γ : Type} (f : α → β → γ) (a : List α) (b : List β)
    (j : Nat) (d : γ) (da : α) (db : β) (ha : j < a.length) (hb : j < b.length) :
    (List.zipWith f a b).getD j d = f (a.getD j da) (b.getD j db) := by
  simp only [List.getD_eq_getElem?_getD, List.getElem?_zipWith,
    List.getElem?_eq_getElem ha, List.getElem?_eq_getElem hb]
  rfl

section TransformFold

variable {F : Type} [Zero F] [Add F] [Sub F] [Mul F] [Div F] [Neg F] [NatCast F] [IntCast F]

/-- One pass of the outer loop of `dft` adds the `N` terms to `y[k]`, one after
the other, starting from what `y[k]` holds. -/
theorem dft_inner_fold (L : Libm F) (x : List (complex_t F)) (N : Int)
    (y : List (complex_t F)) (k : Nat) :
    dft_inner L x N y k =
      y.set k ((List.range N.toNat).foldl
        (fun acc n => complex_add acc (dft_term L x N k n)) (y.getD k ⟨0, 0⟩)) := by
  unfold dft_inner
  exact foldl_set_accumulate (fun acc n => complex_add acc (dft_term L x N k n)) ⟨0, 0⟩ k _ y

theorem dft_getElem?_fold (L : Libm F) (y x : List (complex_t F)) (N : Int) (j : Nat) :
    (dft L y x N)[j]? =
      if j < N.toNat then
        (y[j]?).map (fun v => (List.range N.toNat).foldl
          (fun acc n => complex_add acc (dft_term L x N j n)) v)
      else y[j]? := by
  unfold dft
  have h : dft_inner L x N = fun y k =>
      y.set k ((List.range N.toNat).foldl
        (fun acc n => complex_add acc (dft_term L x N k n)) (y.getD k ⟨0, 0⟩)) := by
    funext y k
    exact dft_inner_fold L x N y k
  rw [h]
  exact getElem?_foldl_range_set
    (fun k v => (List.range N.toNat).foldl
      (fun acc n => complex_add acc (dft_term L x N k n)) v) ⟨0, 0⟩ N.toNat y j

theorem dft_getD_fold (L : Libm F) (y x : List (complex_t F)) (N : Int) (j : Nat)
    (hj : j < N.toNat) (hy : j < y.length) :
    (dft L y x N).getD j ⟨0, 0⟩ =
      (List.range N.toNat).foldl
        (fun acc n => complex_add acc (dft_term L x N j n)) (y.getD j ⟨0, 0⟩) := by
  rw [List.getD_eq_getElem?_getD, dft_getElem?_fold, if_pos hj, List.getD_eq_getElem?_getD,
    List.getElem?_eq_getElem hy]
  rfl

theorem dft_length_fold (L : Libm F) (y x : List (complex_t F)) (N : Int) :
    (dft L y x N).length = y.length := by
  unfold dft
  have h : dft_inner L x N = fun y k =>
      y.set k ((List.range N.toNat).foldl
        (fun acc n => complex_add acc (dft_term L x N k n)) (y.getD k ⟨0, 0⟩)) := by
    funext y k
    exact dft_inner_fold L x N y k
  rw [h]
  exact length_foldl_set _ (fun k => k) _ y

end TransformFold

section Binary32Facts

/-- The rounding on known binary32 values: `0.1` rounds to `13421773 · 2^-27`
and `1/3` to `11184811 · 2^-25`; the tie `2^24 + 1` goes to the even neighbour
`2^24` and `2^24 + 3` to `2^24 + 4`; the largest finite value `2^128 - 2^104` is
kept and the tie `2^128 - 2^103` above it overflows; the smallest subnormal
`2^-149` is kept, its half rounds to zero and `3 · 2^-150` to `2^-148`. -/
theorem Binary32.round_known_values :
    Binary32.round (1 / 10) = Binary32.finite (13421773 / 134217728) ∧
      Binary32.round (1 / 3) = Binary32.finite (11184811 / 33554432) ∧
      Binary32.round (2 ^ 24 + 1) = Binary32.finite (2 ^ 24) ∧
      Binary32.round (2 ^ 24 + 3) = Binary32.finite (2 ^ 24 + 4) ∧
      Binary32.round (2 ^ 128 - 2 ^ 104) = Binary32.finite (2 ^ 128 - 2 ^ 104) ∧
      Binary32.round (2 ^ 128 - 2 ^ 103) = Binary32.infinite false ∧
      Binary32.round (-(2 ^ 128)) = Binary32.infinite true ∧
      Binary32.round (1 / 2 ^ 149) = Binary32.finite (1 / 2 ^ 149) ∧
      Binary32.round (1 / 2 ^ 150) = Binary32.finite 0 ∧
      Binary32.round (3 / 2 ^ 150) = Binary32.finite (1 / 2 ^ 148) := by
  decide!

theorem Binary32.zero_def : (0 : Binary32) = Binary32.finite 0 := rfl

theorem Binary32.one_def : (1 : Binary32) = Binary32.finite 1 := rfl

theorem Binary32.add_finite (a b : ℚ) :
    Binary32.finite a + Binary32.finite b = Binary32.round (a + b) := rfl

theorem Binary32.sub_finite (a b : ℚ) :
    Binary32.finite a - Binary32.finite b = Binary32.round (a - b) := rfl

theorem Binary32.mul_finite (a b : ℚ) :
    Binary32.finite a * Binary32.finite b = Binary32.round (a * b) := rfl

theorem Binary32.neg_finite (a : ℚ) : -Binary32.finite a = Binary32.finite (-a) := rfl

theorem Binary32.div_finite (a b : ℚ) (hb : b ≠ 0) :
    Binary32.finite a / Binary32.finite b = Binary32.round (a / b) := by
  show Binary32.div (Binary32.finite a) (Binary32.finite b) = _
  unfold Binary32.div
  simp only [if_neg hb]

/-- In binary32, when no operation rounds, the round trip through
`complex_mul` and `complex_div` is exact. -/
theorem binary32_div_mul_round_trip (a1 a2 b1 b2 : ℚ)
    (hv : ∀ v ∈ complex_div_mul_values a1 a2 b1 b2, Binary32.representable v)
    (hb : b1 ^ 2 + b2 ^ 2 ≠ 0) :
    complex_div
        (complex_mul (⟨Binary32.finite a1, Binary32.finite a2⟩ : complex_t Binary32)
          ⟨Binary32.finite b1, Binary32.finite b2⟩)
        ⟨Binary32.finite b1, Binary32.finite b2⟩ =
      ⟨Binary32.finite a1, Binary32.finite a2⟩ := by
  unfold complex_div_mul_values at hv
  simp only [List.mem_cons, List.mem_singleton, forall_eq_or_imp, forall_eq,
    Binary32.representable, List.not_mem_nil, false_implies, implies_true, and_true,
    IsEmpty.forall_iff] at hv
  obtain ⟨h1, h2, h3, h4, h5, h6, h7, h8, h9, h10, h11, h12, h13, h14, h15, h16, h17, h18⟩ := hv
  have hD : b1 * b1 - b2 * -b2 ≠ 0 := by
    intro h
    apply hb
    rw [← h]
    ring
  simp only [complex_div, complex_mul, complex_conj, Binary32.one_def, Binary32.neg_finite,
    Binary32.mul_finite, Binary32.sub_finite, Binary32.add_finite, mul_neg_one,
    h3, h4, h5, h6, h7, h8, h9, h10, h11, h12, h13, h14, h15, h16, h17, h18]
  rw [Binary32.div_finite _ _ hD, Binary32.div_finite _ _ hD]
  have e1 : ((a1 * b1 - a2 * b2) * b1 - (a1 * b2 + a2 * b1) * -b2) / (b1 * b1 - b2 * -b2)
      = a1 := by
    rw [div_eq_iff hD]
    ring
  have e2 : ((a1 * b1 - a2 * b2) * -b2 + (a1 * b2 + a2 * b1) * b1) / (b1 * b1 - b2 * -b2)
      = a2 := by
    rw [div_eq_iff hD]
    ring
  rw [e1, e2, h1, h2]

/-- For the bin `k = 0` the twiddle factor of `dft` in binary32 is `(1, 0)`:
the angle `-2*M_PI*0*n/N` is zero. -/
theorem dft_term_binary32_zero (L : Libm Binary32) (hL : L.exact_at_zero)
    (x : List (complex_t Binary32)) (N : Int) (hN : N = 1 ∨ N = 2) (n : Nat) (hn : n < 2) :
    dft_term L x N 0 n =
      complex_mul (x.getD n ⟨0, 0⟩) ⟨Binary32.finite 1, Binary32.finite 0⟩ := by
  obtain ⟨he, hc, hs, hpi⟩ := hL
  have hangle : -2 * Binary32.finite (13176795 / 4194304) * ((0 : ℕ) : Binary32)
      * ((n : ℕ) : Binary32) / ((N : ℤ) : Binary32) = 0 := by
    rcases hN with rfl | rfl <;> interval_cases n <;> decide!
  have e1 : (1 : Binary32) * 1 = Binary32.finite 1 := by decide!
  have e0 : (1 : Binary32) * 0 = Binary32.finite 0 := by decide!
  unfold dft_term dft_kn complex_exp complex_num
  simp only [hpi, hangle, he, hc, hs, e1, e0]

/-- The bin `k = 0` of `dft` in binary32 for `N = 2`: the two samples are added
to `y[0]` one after the other, each after its product with `(1, 0)`. -/
theorem dft_binary32_bin_zero (L : Libm Binary32) (hL : L.exact_at_zero)
    (y x : List (complex_t Binary32)) (hy : 0 < y.length) :
    (dft L y x 2).getD 0 ⟨0, 0⟩ =
      complex_add
        (complex_add (y.getD 0 ⟨0, 0⟩)
          (complex_mul (x.getD 0 ⟨0, 0⟩) ⟨Binary32.finite 1, Binary32.finite 0⟩))
        (complex_mul (x.getD 1 ⟨0, 0⟩) ⟨Binary32.finite 1, Binary32.finite 0⟩) := by
  rw [dft_getD_fold L y x 2 0 (by decide) hy]
  have h2 : (2 : ℤ).toNat = 2 := rfl
  rw [h2]
  simp only [List.range_succ, List.range_zero, List.nil_append, List.foldl_append,
    List.foldl_cons, List.foldl_nil, List.singleton_append]
  rw [dft_term_binary32_zero L hL x 2 (Or.inr rfl) 0 (by decide),
    dft_term_binary32_zero L hL x 2 (Or.inr rfl) 1 (by decide)]

/-- There is a library that is exact at zero. -/
theorem exists_exact_at_zero : ∃ L : Libm Binary32, L.exact_at_zero :=
  ⟨⟨fun _ => 1, fun _ => 1, fun _ => 0, fun _ => 0, fun _ => 0, fun _ _ => 0,
    Binary32.finite (13176795 / 4194304)⟩, rfl, rfl, rfl, rfl⟩

end Binary32Facts

/-! ## The claims -/

section Claims

variable {R : Type} [Field R]

/-- Claim C1, amended: for every `N > 0`, every complex sequence `x` of length
`N` and an output buffer of `N` entries that holds zeros before the call,
after `dft(y, x, N)` every `y[k]`, `k` in `0 .. N-1`, is the terms
`complex_mul(x[n], complex_exp(complex_num(0, -2*M_PI*k*n/N)))` for
`n = 0 .. N-1` summed with `complex_add`; its real and imaginary parts are the
sums of the real and imaginary parts of those terms. -/
theorem dft_zeroed_output (L : Libm R) (N : Nat) (hN : 0 < N) (x : List (complex_t R))
    (hx : x.length = N) (k : Nat) (hk : k < N) :
    (dft L (List.replicate N ⟨0, 0⟩) x N).getD k ⟨0, 0⟩ =
        (List.range N).foldl
          (fun acc n => complex_add acc
            (complex_mul (x.getD n ⟨0, 0⟩)
              (complex_exp L (complex_num 0 (-2 * L.M_PI * k * n / N)))))
          ⟨0, 0⟩ ∧
      ((dft L (List.replicate N ⟨0, 0⟩) x N).getD k ⟨0, 0⟩).real =
        ∑ n in Finset.range N,
          (complex_mul (x.getD n ⟨0, 0⟩)
            (complex_exp L (complex_num 0 (-2 * L.M_PI * k * n / N)))).real ∧
      ((dft L (List.replicate N ⟨0, 0⟩) x N).getD k ⟨0, 0⟩).imag =
        ∑ n in Finset.range N,
          (complex_mul (x.getD n ⟨0, 0⟩)
            (complex_exp L (complex_num 0 (-2 * L.M_PI * k * n / N)))).imag := by
  have h := dft_zeroed_getD L x N k hk
  refine ⟨?_, ?_, ?_⟩
  · rw [h]
    simp [dft_coefficient, dft_term, dft_kn]
  · rw [h, dft_coefficient_real]
    simp [dft_term, dft_kn]
  · rw [h, dft_coefficient_imag]
    simp [dft_term, dft_kn]

/-- Claim C1, the amended statement at `N = 1`, `x = [(5,7)]`: the zeroed
output becomes `[(5,7)]`. -/
theorem dft_zeroed_output_witness :
    0 < 1 ∧ ([⟨5, 7⟩] : List (complex_t ℝ)).length = 1 ∧
      (dft (Libm.mk Real.exp Real.cos Real.sin Real.sqrt (Real.logb 10)
            (fun b a => Complex.arg ⟨a, b⟩) Real.pi)
          (List.replicate 1 ⟨0, 0⟩) [⟨5, 7⟩] (1 : ℕ)).getD 0 ⟨0, 0⟩ = ⟨5, 7⟩ := by
  refine ⟨by decide, rfl, ?_⟩
  rw [(dft_zeroed_output (Libm.mk Real.exp Real.cos Real.sin Real.sqrt (Real.logb 10)
    (fun b a => Complex.arg ⟨a, b⟩) Real.pi) 1 (by decide) [⟨5, 7⟩] rfl 0 (by decide)).1]
  simp [List.range_succ, complex_add, complex_mul, complex_exp, complex_num]

/-- Claim C1 as stated fails when the output buffer is not zero before the
call: with `N = 1`, `x = [(1,0)]` and `y = [(1,0)]`, `dft` leaves
`y[0] = (2,0)` while the sum of the claim is `(1,0)`. -/
theorem dft_accumulates_counterexample :
    (dft (Libm.mk Real.exp Real.cos Real.sin Real.sqrt (Real.logb 10)
          (fun b a => Complex.arg ⟨a, b⟩) Real.pi)
        [⟨1, 0⟩] [⟨1, 0⟩] 1).getD 0 ⟨0, 0⟩ = ⟨2, 0⟩ ∧
      (List.range 1).foldl
          (fun acc n => complex_add acc
            (complex_mul (([⟨1, 0⟩] : List (complex_t ℝ)).getD n ⟨0, 0⟩)
              (complex_exp (Libm.mk Real.exp Real.cos Real.sin Real.sqrt (Real.logb 10)
                  (fun b a => Complex.arg ⟨a, b⟩) Real.pi)
                (complex_num 0 (-2 * Real.pi * (0 : ℕ) * n / (1 : ℕ))))))
          ⟨0, 0⟩ = ⟨1, 0⟩ := by
  constructor
  · simp [dft, dft_inner, dft_term, dft_kn, List.range_succ, complex_add, complex_mul,
      complex_exp, complex_num]
    norm_num
  · simp [List.range_succ, complex_add, complex_mul, complex_exp, complex_num]

/-- Claim C2: for every window size `N ≥ 1`, every transform `X` of length `N`
and every previous content of the `N`-entry spectrum buffer, the derivation
loops of `computeDFT` leave `spectrum[2k] = complex_norm(X[k+1])` and
`spectrum[2k+1] = (complex_norm(X[k+1]) + complex_norm(X[k+2])) / 2` for every
`k` with `k ≤ N/2 - 2`, and zero at every other position below `N`; for `N = 4`
and `X = [(4,0),(0,0),(0,0),(0,0)]` the loop makes the single pass `n = 0` and
the spectrum is `[0, 0, 0, 0]` (with `sqrt(0) = 0`). -/
theorem computeDFT_spectrum_spec (L : Libm R) (h0 : L.sqrt 0 = 0) (N : Nat) (hN : 1 ≤ N)
    (X : List (complex_t R)) (hX : X.length = N) (spectrum : List R)
    (hs : spectrum.length = N) :
    (∀ k, k + 2 ≤ N / 2 →
        (computeDFT_spectrum L N X spectrum).getD (2 * k) 0 =
            complex_norm L (X.getD (k + 1) ⟨0, 0⟩) ∧
          (computeDFT_spectrum L N X spectrum).getD (2 * k + 1) 0 =
            (complex_norm L (X.getD (k + 1) ⟨0, 0⟩)
              + complex_norm L (X.getD (k + 2) ⟨0, 0⟩)) / 2) ∧
      (∀ i, i < N → (∀ k, k + 2 ≤ N / 2 → i ≠ 2 * k ∧ i ≠ 2 * k + 1) →
        (computeDFT_spectrum L N X spectrum).getD i 0 = 0) ∧
      (N = 4 → X = [⟨4, 0⟩, ⟨0, 0⟩, ⟨0, 0⟩, ⟨0, 0⟩] →
        List.range (derivation_passes 4) = [0] ∧
          computeDFT_spectrum L N X spectrum = [0, 0, 0, 0]) := by
  refine ⟨?_, ?_, ?_⟩
  · intro k hk
    have e1 : 2 * k < 2 * (N / 2 - 1) := by omega
    have e2 : 2 * k + 1 < 2 * (N / 2 - 1) := by omega
    have e3 : (2 * k) % 2 = 0 := by omega
    have e4 : ¬ (2 * k + 1) % 2 = 0 := by omega
    have e5 : 2 * k / 2 = k := by omega
    have e6 : (2 * k + 1) / 2 = k := by omega
    constructor
    · rw [computeDFT_spectrum_getD L N X spectrum hs, if_pos e1, if_pos e3, e5]
    · rw [computeDFT_spectrum_getD L N X spectrum hs, if_pos e2, if_neg e4, e6, add_comm]
  · intro i _ hi
    rw [computeDFT_spectrum_getD L N X spectrum hs, if_neg]
    intro hlt
    have hk := hi (i / 2) (by omega)
    omega
  · intro hN4 hX4
    subst hN4
    subst hX4
    constructor
    · decide
    · have hp : derivation_passes (4 : ℤ) = 1 := by decide
      rcases spectrum with _ | ⟨a, _ | ⟨b, _ | ⟨c, _ | ⟨d, _ | ⟨e, t⟩⟩⟩⟩⟩ <;>
        simp at hs
      simp [computeDFT_spectrum, hp, List.range_succ, complex_norm, h0]

/-- Claim C2 at `N = 6`, `X = [(9,9),(1,0),(0,0),(1,0),(9,9),(9,9)]` and a
stale spectrum `[7,7,7,7,7,7]`: with the real square root the spectrum becomes
`[1, 1/2, 0, 1/2, 0, 0]`. -/
theorem computeDFT_spectrum_spec_witness :
    Real.sqrt 0 = 0 ∧ 1 ≤ 6 ∧
      ((List.range 6).map fun i =>
        (computeDFT_spectrum (Libm.mk Real.exp Real.cos Real.sin Real.sqrt (Real.logb 10)
            (fun b a => Complex.arg ⟨a, b⟩) Real.pi) (6 : ℕ)
          [⟨9, 9⟩, ⟨1, 0⟩, ⟨0, 0⟩, ⟨1, 0⟩, ⟨9, 9⟩, ⟨9, 9⟩] [7, 7, 7, 7, 7, 7]).getD i 0) =
        [1, 1 / 2, 0, 1 / 2, 0, 0] := by
  have h := computeDFT_spectrum_spec (Libm.mk Real.exp Real.cos Real.sin Real.sqrt
    (Real.logb 10) (fun b a => Complex.arg ⟨a, b⟩) Real.pi) Real.sqrt_zero 6 (by decide)
    [⟨9, 9⟩, ⟨1, 0⟩, ⟨0, 0⟩, ⟨1, 0⟩, ⟨9, 9⟩, ⟨9, 9⟩] rfl [7, 7, 7, 7, 7, 7] rfl
  obtain ⟨hw, hz, -⟩ := h
  have h0 := hw 0 (by decide)
  have h1 := hw 1 (by decide)
  have h4 := hz 4 (by decide) (by intro k hk; omega)
  have h5 := hz 5 (by decide) (by intro k hk; omega)
  refine ⟨Real.sqrt_zero, by decide, ?_⟩
  simp only [List.range_succ, List.range_zero, List.nil_append, List.cons_append,
    List.map_cons, List.map_nil]
  simp only [Nat.mul_zero, Nat.mul_one, Nat.zero_add] at h0 h1
  rw [h0.1, h0.2, h1.1, h1.2, h4, h5]
  simp [complex_norm]

/-- Claim C3: for every window size `N ≥ 1` and every transform `X` of length
`N` whose used bins `X[1] .. X[N/2]` have non-zero magnitude, `computePSD`
leaves `Pxx[2k] = 20*log10(complex_norm(X[k+1])^2)` and
`Pxx[2k+1] = 20*log10(((complex_norm(X[k+1]) + complex_norm(X[k+2]))/2)^2)` for
every `k` with `k ≤ N/2 - 2`, and zero at every other position below `N`. -/
theorem computePSD_spec (L : Libm R) (N : Nat) (hN : 1 ≤ N) (g : Buffers R)
    (hX : g.X.length = N) (hP : g.Pxx.length = N)
    (hbins : ∀ j, 1 ≤ j → j ≤ N / 2 → complex_norm L (g.X.getD j ⟨0, 0⟩) ≠ 0) :
    (∀ k, k + 2 ≤ N / 2 →
        (computePSD L N g).Pxx.getD (2 * k) 0 =
            20 * L.log10 (complex_norm L (g.X.getD (k + 1) ⟨0, 0⟩) ^ 2) ∧
          (computePSD L N g).Pxx.getD (2 * k + 1) 0 =
            20 * L.log10
              (((complex_norm L (g.X.getD (k + 1) ⟨0, 0⟩)
                  + complex_norm L (g.X.getD (k + 2) ⟨0, 0⟩)) / 2) ^ 2)) ∧
      (∀ i, i < N → (∀ k, k + 2 ≤ N / 2 → i ≠ 2 * k ∧ i ≠ 2 * k + 1) →
        (computePSD L N g).Pxx.getD i 0 = 0) := by
  have hPxx : (computePSD L N g).Pxx = computePSD_loop L N g.X g.Pxx := rfl
  refine ⟨?_, ?_⟩
  · intro k hk
    have e1 : 2 * k < 2 * (N / 2 - 1) := by omega
    have e2 : 2 * k + 1 < 2 * (N / 2 - 1) := by omega
    have e3 : (2 * k) % 2 = 0 := by omega
    have e4 : ¬ (2 * k + 1) % 2 = 0 := by omega
    have e5 : 2 * k / 2 = k := by omega
    have e6 : (2 * k + 1) / 2 = k := by omega
    constructor
    · rw [hPxx, computePSD_loop_getD L N g.X g.Pxx hP, if_pos e1, if_pos e3, e5]
    · rw [hPxx, computePSD_loop_getD L N g.X g.Pxx hP, if_pos e2, if_neg e4, e6, add_comm]
  · intro i _ hi
    rw [hPxx, computePSD_loop_getD L N g.X g.Pxx hP, if_neg]
    intro hlt
    have hk := hi (i / 2) (by omega)
    omega

/-- Claim C3 at `N = 4`, `X = [(0,0),(10,0),(10,0),(0,0)]` and a stale PSD
buffer `[7,7,7,7]`: the used bins `X[1]`, `X[2]` have magnitude 10 and the PSD
becomes `[40, 40, 0, 0]`. -/
theorem computePSD_spec_witness :
    (∀ j, 1 ≤ j → j ≤ 4 / 2 →
        complex_norm (Libm.mk Real.exp Real.cos Real.sin Real.sqrt (Real.logb 10)
            (fun b a => Complex.arg ⟨a, b⟩) Real.pi)
          (([⟨0, 0⟩, ⟨10, 0⟩, ⟨10, 0⟩, ⟨0, 0⟩] : List (complex_t ℝ)).getD j ⟨0, 0⟩) ≠ 0) ∧
      ((List.range 4).map fun i =>
        (computePSD (Libm.mk Real.exp Real.cos Real.sin Real.sqrt (Real.logb 10)
            (fun b a => Complex.arg ⟨a, b⟩) Real.pi) (4 : ℕ)
          ⟨[], [], [⟨0, 0⟩, ⟨10, 0⟩, ⟨10, 0⟩, ⟨0, 0⟩], [], [7, 7, 7, 7]⟩).Pxx.getD i 0) =
        [40, 40, 0, 0] := by
  have hsq : Real.sqrt (10 ^ 2) = 10 := Real.sqrt_sq (by norm_num)
  have hlog : Real.logb 10 (10 ^ 2) = 2 := by
    rw [show ((10 : ℝ) ^ 2) = (10 : ℝ) ^ (2 : ℝ) by norm_num]
    exact Real.logb_rpow (by norm_num) (by norm_num)
  have hb : ∀ j, 1 ≤ j → j ≤ 4 / 2 →
      complex_norm (Libm.mk Real.exp Real.cos Real.sin Real.sqrt (Real.logb 10)
          (fun b a => Complex.arg ⟨a, b⟩) Real.pi)
        (([⟨0, 0⟩, ⟨10, 0⟩, ⟨10, 0⟩, ⟨0, 0⟩] : List (complex_t ℝ)).getD j ⟨0, 0⟩) ≠ 0 := by
    intro j h1 h2
    have hj : j = 1 ∨ j = 2 := by omega
    rcases hj with rfl | rfl <;> simp [complex_norm, hsq]
  obtain ⟨hw, hz⟩ := computePSD_spec (Libm.mk Real.exp Real.cos Real.sin Real.sqrt
    (Real.logb 10) (fun b a => Complex.arg ⟨a, b⟩) Real.pi) 4 (by decide)
    ⟨[], [], [⟨0, 0⟩, ⟨10, 0⟩, ⟨10, 0⟩, ⟨0, 0⟩], [], [7, 7, 7, 7]⟩ rfl rfl hb
  have h0 := hw 0 (by decide)
  have h2 := hz 2 (by decide) (by intro k hk; omega)
  have h3 := hz 3 (by decide) (by intro k hk; omega)
  refine ⟨hb, ?_⟩
  simp only [List.range_succ, List.range_zero, List.nil_append, List.cons_append,
    List.map_cons, List.map_nil]
  simp only [Nat.mul_zero, Nat.zero_add] at h0
  rw [h0.1, h0.2, h2, h3]
  simp [complex_norm, hsq, hlog]
  norm_num

/-- Claim C4: for every `N > 0` and every real amplitude `A`, the transform
that `computeDFT` computes from the constant signal `x[n] = A` (samples turned
into zero-imaginary complex values, output zeroed, then `dft`) has
`X[0] = (N*A, 0)` and `complex_norm(X[k]) = 0` for every `k` in `1 .. N-1`,
with `float` read as the reals and `math.h` as the real functions. -/
theorem computeDFT_constant (L : Libm ℝ) (hL : L.exact) (N : Nat) (hN : 0 < N) (A : ℝ)
    (g : Buffers ℝ) (hx : g.x = List.replicate N A) (hcx : g.cx.length = N)
    (hX : g.X.length = N) :
    (computeDFT L N g).X.getD 0 ⟨0, 0⟩ = ⟨N * A, 0⟩ ∧
      ∀ k, 1 ≤ k → k < N → complex_norm L ((computeDFT L N g).X.getD k ⟨0, 0⟩) = 0 := by
  have hXeq : (computeDFT L N g).X = (computeDFT_transform L N g.x g.cx g.X).2 := rfl
  have hterm : ∀ k n, n < N →
      dft_term L (computeDFT_transform L N g.x g.cx g.X).1 N k n =
        ⟨A * Real.cos (-2 * Real.pi * k * n / N),
          A * Real.sin (-2 * Real.pi * k * n / N)⟩ := by
    intro k n hn
    apply dft_term_constant L hL
    rw [hx]
    exact computeDFT_transform_constant_cx L N A g.cx g.X hcx n hn
  have hre : ∀ k, k < N → ((computeDFT L N g).X.getD k ⟨0, 0⟩).real =
      A * ∑ n in Finset.range N, Real.cos (-2 * Real.pi * k * n / N) := by
    intro k hk
    rw [hXeq, computeDFT_transform_getD L N g.x g.cx g.X hX k hk, dft_coefficient_real,
      Finset.mul_sum]
    simp only [Int.toNat_ofNat]
    refine Finset.sum_congr rfl (fun n hn => ?_)
    rw [hterm k n (Finset.mem_range.mp hn)]
  have him : ∀ k, k < N → ((computeDFT L N g).X.getD k ⟨0, 0⟩).imag =
      A * ∑ n in Finset.range N, Real.sin (-2 * Real.pi * k * n / N) := by
    intro k hk
    rw [hXeq, computeDFT_transform_getD L N g.x g.cx g.X hX k hk, dft_coefficient_imag,
      Finset.mul_sum]
    simp only [Int.toNat_ofNat]
    refine Finset.sum_congr rfl (fun n hn => ?_)
    rw [hterm k n (Finset.mem_range.mp hn)]
  constructor
  · ext
    · rw [hre 0 hN]
      simp [mul_comm]
    · rw [him 0 hN]
      simp
  · intro k hk1 hkN
    have h1 := hre k hkN
    have h2 := him k hkN
    rw [sum_cos_twiddle N k hk1 hkN, mul_zero] at h1
    rw [sum_sin_twiddle N k hk1 hkN, mul_zero] at h2
    unfold complex_norm
    rw [h1, h2, hL.2.2.2.1]
    simp

/-- Claim C4 at `N = 2`, `A = 3`, with stale content in `cx` and `X`:
`X[0] = (6, 0)` and `complex_norm(X[1]) = 0`. -/
theorem computeDFT_constant_witness :
    Libm.exact (Libm.mk Real.exp Real.cos Real.sin Real.sqrt (Real.logb 10)
        (fun b a => Complex.arg ⟨a, b⟩) Real.pi) ∧
      (computeDFT (Libm.mk Real.exp Real.cos Real.sin Real.sqrt (Real.logb 10)
          (fun b a => Complex.arg ⟨a, b⟩) Real.pi) (2 : ℕ)
        ⟨[3, 3], [⟨9, 9⟩, ⟨9, 9⟩], [⟨8, 8⟩, ⟨8, 8⟩], [], []⟩).X.getD 0 ⟨0, 0⟩ = ⟨6, 0⟩ ∧
      complex_norm (Libm.mk Real.exp Real.cos Real.sin Real.sqrt (Real.logb 10)
          (fun b a => Complex.arg ⟨a, b⟩) Real.pi)
        ((computeDFT (Libm.mk Real.exp Real.cos Real.sin Real.sqrt (Real.logb 10)
            (fun b a => Complex.arg ⟨a, b⟩) Real.pi) (2 : ℕ)
          ⟨[3, 3], [⟨9, 9⟩, ⟨9, 9⟩], [⟨8, 8⟩, ⟨8, 8⟩], [], []⟩).X.getD 1 ⟨0, 0⟩) = 0 := by
  have hL : Libm.exact (Libm.mk Real.exp Real.cos Real.sin Real.sqrt (Real.logb 10)
      (fun b a => Complex.arg ⟨a, b⟩) Real.pi) := ⟨rfl, rfl, rfl, rfl, rfl, rfl, rfl⟩
  obtain ⟨h0, hk⟩ := computeDFT_constant (Libm.mk Real.exp Real.cos Real.sin Real.sqrt
    (Real.logb 10) (fun b a => Complex.arg ⟨a, b⟩) Real.pi) hL 2 (by decide) 3
    ⟨[3, 3], [⟨9, 9⟩, ⟨9, 9⟩], [⟨8, 8⟩, ⟨8, 8⟩], [], []⟩ rfl rfl rfl
  refine ⟨hL, ?_, hk 1 (by decide) (by decide)⟩
  rw [h0]
  norm_num

/-- Claim C5, amended: in exact arithmetic, for every `N > 0` and every two
complex sequences `x` and `y` of length `N`, the transform of the elementwise
`complex_add` of `x` and `y` is the elementwise `complex_add` of the
transforms of `x` and of `y`, each computed by `dft` into a zeroed output of
`N` entries. -/
theorem dft_linear (L : Libm R) (N : Nat) (hN : 0 < N) (x y : List (complex_t R))
    (hx : x.length = N) (hy : y.length = N) :
    dft L (List.replicate N ⟨0, 0⟩) (List.zipWith complex_add x y) N =
      List.zipWith complex_add (dft L (List.replicate N ⟨0, 0⟩) x N)
        (dft L (List.replicate N ⟨0, 0⟩) y N) := by
  apply List.ext_getElem?
  intro j
  rw [List.getElem?_zipWith, dft_getElem?, dft_getElem?, dft_getElem?,
    dft_coefficient_add L x y (hx.trans hy.symm), List.getElem?_replicate]
  by_cases hj : j < N
  · simp only [Int.toNat_ofNat, hj, if_true, Option.map_some']
    congr 1
    ext <;> simp [complex_add]
  · simp [hj]

/-- Claim C5, the amended statement at `N = 2`, `x = [(1,2),(3,4)]`,
`y = [(5,6),(7,8)]`. -/
theorem dft_linear_witness :
    0 < 2 ∧
      dft (Libm.mk Real.exp Real.cos Real.sin Real.sqrt (Real.logb 10)
          (fun b a => Complex.arg ⟨a, b⟩) Real.pi) (List.replicate 2 ⟨0, 0⟩)
          (List.zipWith complex_add [⟨1, 2⟩, ⟨3, 4⟩] [⟨5, 6⟩, ⟨7, 8⟩]) (2 : ℕ) =
        List.zipWith complex_add
          (dft (Libm.mk Real.exp Real.cos Real.sin Real.sqrt (Real.logb 10)
            (fun b a => Complex.arg ⟨a, b⟩) Real.pi) (List.replicate 2 ⟨0, 0⟩)
            [⟨1, 2⟩, ⟨3, 4⟩] (2 : ℕ))
          (dft (Libm.mk Real.exp Real.cos Real.sin Real.sqrt (Real.logb 10)
            (fun b a => Complex.arg ⟨a, b⟩) Real.pi) (List.replicate 2 ⟨0, 0⟩)
            [⟨5, 6⟩, ⟨7, 8⟩] (2 : ℕ)) :=
  ⟨by decide, dft_linear _ 2 (by decide) [⟨1, 2⟩, ⟨3, 4⟩] [⟨5, 6⟩, ⟨7, 8⟩] rfl rfl⟩

/-- Claim C5 as stated fails in the arithmetic of `float`: with `N = 2`,
`x = [(1,0),(1,0)]` and `y = [(2^25,0),(-2^25,0)]` the elementwise sum rounds to
`y` itself, so bin 0 of its transform is `0 + 2^25 - 2^25 = (0,0)`, while bin 0
of the transform of `x` is `(2,0)` and that of `y` is `(0,0)`, whose
`complex_add` is `(2,0)`.  This holds for every `math.h` that is exact at zero. -/
theorem dft_linear_counterexample :
    (Binary32.representable 1 ∧ Binary32.representable (2 ^ 25) ∧
        Binary32.representable (-2 ^ 25)) ∧
      List.zipWith complex_add
          ([⟨Binary32.finite 1, 0⟩, ⟨Binary32.finite 1, 0⟩] : List (complex_t Binary32))
          [⟨Binary32.finite (2 ^ 25), 0⟩, ⟨Binary32.finite (-2 ^ 25), 0⟩] =
        [⟨Binary32.finite (2 ^ 25), 0⟩, ⟨Binary32.finite (-2 ^ 25), 0⟩] ∧
      (∃ L : Libm Binary32, L.exact_at_zero) ∧
      ∀ L : Libm Binary32, L.exact_at_zero →
        (dft L (List.replicate 2 ⟨0, 0⟩)
            (List.zipWith complex_add
              [⟨Binary32.finite 1, 0⟩, ⟨Binary32.finite 1, 0⟩]
              [⟨Binary32.finite (2 ^ 25), 0⟩, ⟨Binary32.finite (-2 ^ 25), 0⟩])
            2).getD 0 ⟨0, 0⟩ = ⟨0, 0⟩ ∧
          (List.zipWith complex_add
            (dft L (List.replicate 2 ⟨0, 0⟩)
              [⟨Binary32.finite 1, 0⟩, ⟨Binary32.finite 1, 0⟩] 2)
            (dft L (List.replicate 2 ⟨0, 0⟩)
              [⟨Binary32.finite (2 ^ 25), 0⟩, ⟨Binary32.finite (-2 ^ 25), 0⟩] 2)).getD 0
              ⟨0, 0⟩ = ⟨Binary32.finite 2, 0⟩ := by
  refine ⟨by decide!, by decide!, exists_exact_at_zero, fun L hL => ⟨?_, ?_⟩⟩
  · rw [dft_binary32_bin_zero L hL _ _ (by decide)]
    decide!
  · have hx : 0 < (dft L (List.replicate 2 ⟨0, 0⟩)
        [⟨Binary32.finite 1, 0⟩, ⟨Binary32.finite 1, 0⟩] 2).length := by
      rw [dft_length_fold]
      decide
    have hy : 0 < (dft L (List.replicate 2 ⟨0, 0⟩)
        [⟨Binary32.finite (2 ^ 25), 0⟩, ⟨Binary32.finite (-2 ^ 25), 0⟩] 2).length := by
      rw [dft_length_fold]
      decide
    rw [getD_zipWith_of_lt complex_add _ _ 0 _ ⟨0, 0⟩ ⟨0, 0⟩ hx hy,
      dft_binary32_bin_zero L hL _ _ (by decide), dft_binary32_bin_zero L hL _ _ (by decide)]
    decide!

/-- Claim C6, amended: `complex_div(complex_mul(a, b), b)` equals `a` in exact
arithmetic for every complex `a` and every complex `b` whose modulus
`complex_norm(b)` is nonzero (`sqrt(0) = 0`); in binary32 it equals `a` for
`a = (a1, a2)`, `b = (b1, b2)` with `b1² + b2² ≠ 0` whenever none of the `float`
operations involved rounds, that is when the inputs `a1`, `a2` and the exact
value of every intermediate result are binary32 values. -/
theorem complex_div_mul_cancel (L : Libm R) (h0 : L.sqrt 0 = 0) (a b : complex_t R)
    (hb : complex_norm L b ≠ 0) (a1 a2 b1 b2 : ℚ)
    (hv : ∀ v ∈ complex_div_mul_values a1 a2 b1 b2, Binary32.representable v)
    (hb32 : b1 ^ 2 + b2 ^ 2 ≠ 0) :
    complex_div (complex_mul a b) b = a ∧
      complex_div
          (complex_mul (⟨Binary32.finite a1, Binary32.finite a2⟩ : complex_t Binary32)
            ⟨Binary32.finite b1, Binary32.finite b2⟩)
          ⟨Binary32.finite b1, Binary32.finite b2⟩ =
        ⟨Binary32.finite a1, Binary32.finite a2⟩ := by
  refine ⟨?_, binary32_div_mul_round_trip a1 a2 b1 b2 hv hb32⟩
  have hd : b.real ^ 2 + b.imag ^ 2 ≠ 0 :=
    denominator_ne_zero_of_norm_ne_zero L h0 b hb
  rw [complex_div_eq]
  ext
  · simp only [complex_mul]
    field_simp
    ring
  · simp only [complex_mul]
    field_simp
    ring

/-- Claim C6, the amended statement at `a = (1,2)`, `b = (3,4)`, whose modulus
is `sqrt 25`: the intermediate results are the integers
`3, 8, -5, 4, 6, 10, -4, -15, -40, 25, 20, 30, 50, 9, -16, 25`. -/
theorem complex_div_mul_cancel_witness :
    Real.sqrt 0 = 0 ∧
      complex_norm (Libm.mk Real.exp Real.cos Real.sin Real.sqrt (Real.logb 10)
        (fun b a => Complex.arg ⟨a, b⟩) Real.pi) (⟨3, 4⟩ : complex_t ℝ) ≠ 0 ∧
      (∀ v ∈ complex_div_mul_values 1 2 3 4, Binary32.representable v) ∧
      (3 : ℚ) ^ 2 + 4 ^ 2 ≠ 0 ∧
      complex_div (complex_mul (⟨1, 2⟩ : complex_t ℝ) ⟨3, 4⟩) ⟨3, 4⟩ = ⟨1, 2⟩ ∧
      complex_div
          (complex_mul (⟨Binary32.finite 1, Binary32.finite 2⟩ : complex_t Binary32)
            ⟨Binary32.finite 3, Binary32.finite 4⟩)
          ⟨Binary32.finite 3, Binary32.finite 4⟩ =
        ⟨Binary32.finite 1, Binary32.finite 2⟩ := by
  have h : complex_norm (Libm.mk Real.exp Real.cos Real.sin Real.sqrt (Real.logb 10)
        (fun b a => Complex.arg ⟨a, b⟩) Real.pi) (⟨3, 4⟩ : complex_t ℝ) ≠ 0 := by
    simp only [complex_norm]
    have : (0:ℝ) < 3 ^ 2 + 4 ^ 2 := by norm_num
    exact (Real.sqrt_pos.mpr this).ne'
  exact ⟨Real.sqrt_zero, h, by decide!, by decide!,
    complex_div_mul_cancel _ Real.sqrt_zero _ _ h 1 2 3 4 (by decide!) (by decide!)⟩

/-- Claim C6 as stated fails in the arithmetic of `float`: with `a = (1,0)` and
`b = (2^64,0)`, whose squared modulus `2^128` is not zero, the product `a * b` is
`(2^64,0)`; in `complex_div` the real parts of the numerator and of the
denominator are both `2^64 * 2^64`, which overflows to `+inf`, and their
quotient is NaN. -/
theorem complex_div_mul_cancel_counterexample :
    (Binary32.representable 1 ∧ Binary32.representable 0 ∧
        Binary32.representable (2 ^ 64)) ∧
      ((2 : ℚ) ^ 64) ^ 2 + 0 ^ 2 ≠ 0 ∧
      complex_mul (⟨Binary32.finite 1, Binary32.finite 0⟩ : complex_t Binary32)
          ⟨Binary32.finite (2 ^ 64), Binary32.finite 0⟩ =
        ⟨Binary32.finite (2 ^ 64), Binary32.finite 0⟩ ∧
      complex_mul (⟨Binary32.finite (2 ^ 64), Binary32.finite 0⟩ : complex_t Binary32)
          (complex_conj ⟨Binary32.finite (2 ^ 64), Binary32.finite 0⟩) =
        ⟨Binary32.infinite false, Binary32.finite 0⟩ ∧
      complex_div
          (complex_mul (⟨Binary32.finite 1, Binary32.finite 0⟩ : complex_t Binary32)
            ⟨Binary32.finite (2 ^ 64), Binary32.finite 0⟩)
          ⟨Binary32.finite (2 ^ 64), Binary32.finite 0⟩ =
        ⟨Binary32.nan, Binary32.finite 0⟩ ∧
      complex_div
          (complex_mul (⟨Binary32.finite 1, Binary32.finite 0⟩ : complex_t Binary32)
            ⟨Binary32.finite (2 ^ 64), Binary32.finite 0⟩)
          ⟨Binary32.finite (2 ^ 64), Binary32.finite 0⟩ ≠
        ⟨Binary32.finite 1, Binary32.finite 0⟩ := by
  decide!

/-- Claim C7, amended: `complex_sub(complex_add(a, b), b)` equals `a` in exact
arithmetic for every pair of complex numbers; in binary32 it equals `a` for
`a = (a1, a2)`, `b = (b1, b2)` whenever the two sums `a1 + b1` and `a2 + b2` are
binary32 values, that is when the addition does not round. -/
theorem complex_sub_add_cancel (a b : complex_t R) (a1 a2 b1 b2 : ℚ)
    (ha1 : Binary32.representable a1) (ha2 : Binary32.representable a2)
    (h1 : Binary32.representable (a1 + b1)) (h2 : Binary32.representable (a2 + b2)) :
    complex_sub (complex_add a b) b = a ∧
      complex_sub
          (complex_add (⟨Binary32.finite a1, Binary32.finite a2⟩ : complex_t Binary32)
            ⟨Binary32.finite b1, Binary32.finite b2⟩)
          ⟨Binary32.finite b1, Binary32.finite b2⟩ =
        ⟨Binary32.finite a1, Binary32.finite a2⟩ := by
  unfold Binary32.representable at ha1 ha2 h1 h2
  constructor
  · ext <;> simp [complex_sub, complex_add]
  · simp only [complex_sub, complex_add, Binary32.add_finite, h1, h2, Binary32.sub_finite,
      add_sub_cancel_right, ha1, ha2]

/-- Claim C7, the amended statement at `a = (1, 1/2)`, `b = (2^23, 1/4)`: the
sums `2^23 + 1` and `3/4` are binary32 values. -/
theorem complex_sub_add_cancel_witness :
    Binary32.representable 1 ∧ Binary32.representable (1 / 2) ∧
      Binary32.representable (1 + 2 ^ 23) ∧ Binary32.representable (1 / 2 + 1 / 4) ∧
      complex_sub (complex_add (⟨1, 1 / 2⟩ : complex_t ℚ) ⟨2 ^ 23, 1 / 4⟩) ⟨2 ^ 23, 1 / 4⟩ =
        ⟨1, 1 / 2⟩ ∧
      complex_sub
          (complex_add (⟨Binary32.finite 1, Binary32.finite (1 / 2)⟩ : complex_t Binary32)
            ⟨Binary32.finite (2 ^ 23), Binary32.finite (1 / 4)⟩)
          ⟨Binary32.finite (2 ^ 23), Binary32.finite (1 / 4)⟩ =
        ⟨Binary32.finite 1, Binary32.finite (1 / 2)⟩ :=
  ⟨by decide!, by decide!, by decide!, by decide!,
    complex_sub_add_cancel ⟨1, 1 / 2⟩ ⟨2 ^ 23, 1 / 4⟩ 1 (1 / 2) (2 ^ 23) (1 / 4)
      (by decide!) (by decide!) (by decide!) (by decide!)⟩

/-- Claim C7 as stated fails in the arithmetic of `float`: with `a = (1,0)` and
`b = (2^25,0)` the sum `1 + 2^25` lies between the neighbouring binary32 values
`2^25` and `2^25 + 4` and rounds to `2^25`, so `complex_add(a, b)` is `b` and the
subtraction of `b` leaves `(0,0)`, not `a`. -/
theorem complex_sub_add_cancel_counterexample :
    (Binary32.representable 1 ∧ Binary32.representable (2 ^ 25) ∧
        Binary32.representable 0) ∧
      complex_add (⟨Binary32.finite 1, Binary32.finite 0⟩ : complex_t Binary32)
          ⟨Binary32.finite (2 ^ 25), Binary32.finite 0⟩ =
        ⟨Binary32.finite (2 ^ 25), Binary32.finite 0⟩ ∧
      complex_sub
          (complex_add (⟨Binary32.finite 1, Binary32.finite 0⟩ : complex_t Binary32)
            ⟨Binary32.finite (2 ^ 25), Binary32.finite 0⟩)
          ⟨Binary32.finite (2 ^ 25), Binary32.finite 0⟩ =
        ⟨Binary32.finite 0, Binary32.finite 0⟩ ∧
      complex_sub
          (complex_add (⟨Binary32.finite 1, Binary32.finite 0⟩ : complex_t Binary32)
            ⟨Binary32.finite (2 ^ 25), Binary32.finite 0⟩)
          ⟨Binary32.finite (2 ^ 25), Binary32.finite 0⟩ ≠
        ⟨Binary32.finite 1, Binary32.finite 0⟩ := by
  decide!

/-- Claim C8: for every complex number `c`, `complex_conj(c)` is
`(c.real, -c.imag)` and `complex_conj(complex_conj(c))` equals `c`. -/
theorem complex_conj_involutive (c : complex_t R) :
    complex_conj c = ⟨c.real, -c.imag⟩ ∧ complex_conj (complex_conj c) = c := by
  constructor
  · simp [complex_conj]
  · ext <;> simp [complex_conj]

/-- Claim C9, amended: `complex_div` has no failure path; whenever the real
denominator term `b.real^2 + b.imag^2` is nonzero, the value it returns is the
one the specification's division yields, `mul(a, conj(b))` divided
componentwise by that term. -/
theorem spec_complex_div_eq_of_ne_zero [DecidableEq R] (a b : complex_t R)
    (hb : b.real ^ 2 + b.imag ^ 2 ≠ 0) :
    spec_complex_div a b = Except.ok (complex_div a b) := by
  unfold spec_complex_div
  rw [if_neg hb]
  simp only [complex_div, complex_mul_conj_real]

/-- Claim C9, the amended statement at `a = (1,2)`, `b = (3,4)`. -/
theorem spec_complex_div_eq_of_ne_zero_witness :
    (3 : ℚ) ^ 2 + 4 ^ 2 ≠ 0 ∧
      spec_complex_div (⟨1, 2⟩ : complex_t ℚ) ⟨3, 4⟩ =
        Except.ok (complex_div ⟨1, 2⟩ ⟨3, 4⟩) :=
  ⟨by norm_num, spec_complex_div_eq_of_ne_zero ⟨1, 2⟩ ⟨3, 4⟩ (by norm_num)⟩

/-- Claim C9 as stated fails at `a = (1,0)`, `b = (0,0)`: the denominator term
is zero and the specification's division fails with `ArithmeticError`, while
`complex_div` returns: its real part is the numerator's real part divided by
that zero denominator. -/
theorem complex_div_zero_modulus_counterexample :
    (complex_mul (⟨0, 0⟩ : complex_t ℚ) (complex_conj ⟨0, 0⟩)).real = 0 ∧
      spec_complex_div (⟨1, 0⟩ : complex_t ℚ) ⟨0, 0⟩ =
        Except.error DspError.ArithmeticError ∧
      (complex_div (⟨1, 0⟩ : complex_t ℚ) ⟨0, 0⟩).real =
        (complex_mul (⟨1, 0⟩ : complex_t ℚ) (complex_conj ⟨0, 0⟩)).real / 0 ∧
      Except.ok (complex_div (⟨1, 0⟩ : complex_t ℚ) ⟨0, 0⟩) ≠
        spec_complex_div (⟨1, 0⟩ : complex_t ℚ) ⟨0, 0⟩ := by
  refine ⟨?_, ?_, ?_, ?_⟩
  · simp [complex_mul, complex_conj]
  · simp [spec_complex_div]
  · simp [complex_div, complex_mul, complex_conj]
  · simp [spec_complex_div]

/-- Claim C10, amended: `dft` called with a transform size `N ≤ 0` makes no
loop pass and returns with the output buffer unchanged; it signals no error. -/
theorem dft_nonpositive_size (L : Libm R) (y x : List (complex_t R)) (N : Int)
    (hN : N ≤ 0) : dft L y x N = y := by
  unfold dft
  rw [Int.toNat_of_nonpos hN]
  rfl

/-- Claim C10, the amended statement at `N = -1`. -/
theorem dft_nonpositive_size_witness :
    (-1 : Int) ≤ 0 ∧
      dft (Libm.mk Real.exp Real.cos Real.sin Real.sqrt (Real.logb 10)
          (fun b a => Complex.arg ⟨a, b⟩) Real.pi) [⟨1, 2⟩, ⟨3, 4⟩] [⟨5, 6⟩] (-1) =
        [⟨1, 2⟩, ⟨3, 4⟩] :=
  ⟨by decide, dft_nonpositive_size _ _ _ _ (by decide)⟩

/-- Claim C10 as stated fails at `N = 0`: the specification's transform fails
with `InvalidInput`, while `dft` returns and leaves `y = [(1,0)]` as it was. -/
theorem dft_nonpositive_size_counterexample :
    dft (Libm.mk Real.exp Real.cos Real.sin Real.sqrt (Real.logb 10)
          (fun b a => Complex.arg ⟨a, b⟩) Real.pi) [⟨1, 0⟩] [⟨1, 0⟩] 0 = [⟨1, 0⟩] ∧
      spec_dft (Libm.mk Real.exp Real.cos Real.sin Real.sqrt (Real.logb 10)
          (fun b a => Complex.arg ⟨a, b⟩) Real.pi) [⟨1, 0⟩] 0 =
        Except.error DspError.InvalidInput ∧
      Except.ok (dft (Libm.mk Real.exp Real.cos Real.sin Real.sqrt (Real.logb 10)
          (fun b a => Complex.arg ⟨a, b⟩) Real.pi) [⟨1, 0⟩] [⟨1, 0⟩] 0) ≠
        spec_dft (Libm.mk Real.exp Real.cos Real.sin Real.sqrt (Real.logb 10)
          (fun b a => Complex.arg ⟨a, b⟩) Real.pi) [⟨1, 0⟩] 0 := by
  refine ⟨?_, ?_, ?_⟩
  · simp [dft]
  · simp [spec_dft]
  · simp [spec_dft]

/-- Claim C12, amended: for every capacity `N > 0` and every sequence of
`N + 3` sample values written one per pass by `tmp_daq` from the start of a
window, the last `N` written values sit in the slots of their numbers modulo
`N`: reading the window cyclically from index `3 mod N` (indices
`(3 + j) mod N` for `j = 0 .. N-1`) gives exactly the last `N` written values
in chronological order, oldest first. -/
theorem tmp_daq_window_after_wrap (L : Libm R) (N : Nat) (hN : 0 < N) (s : DaqState R)
    (hn : s.n = 0) (hx : s.g.x.length = N) (temps : List R)
    (hlen : temps.length = N + 3) :
    (List.range N).map
        (fun j => (tmp_daq_ticks L N temps s).1.g.x.getD ((3 + j) % N) 0) =
      temps.drop 3 := by
  obtain ⟨-, -, hslots, -⟩ := tmp_daq_ticks_invariant L N hN s hn hx temps
  apply List.ext_getElem?
  intro j
  rw [List.getElem?_drop]
  by_cases hj : j < N
  · rw [List.getElem?_map, List.getElem?_range hj, Option.map_some',
      hslots (3 + j) (by omega) (by omega), List.getD_eq_getElem?_getD,
      List.getElem?_eq_getElem (by omega : 3 + j < temps.length)]
    rfl
  · rw [List.getElem?_eq_none (by simpa using Nat.le_of_not_lt hj),
      List.getElem?_eq_none (by omega)]

/-- Claim C12, the amended statement at `N = 4` with the seven values
`10 .. 16`: read from index 3 and wrapping, the window gives
`[13, 14, 15, 16]`. -/
theorem tmp_daq_window_after_wrap_witness :
    0 < 4 ∧
      (List.range 4).map
        (fun j => (tmp_daq_ticks (Libm.mk Real.exp Real.cos Real.sin Real.sqrt (Real.logb 10)
          (fun b a => Complex.arg ⟨a, b⟩) Real.pi) 4 [10, 11, 12, 13, 14, 15, 16]
          ⟨⟨[0, 0, 0, 0], [⟨0, 0⟩, ⟨0, 0⟩, ⟨0, 0⟩, ⟨0, 0⟩], [⟨0, 0⟩, ⟨0, 0⟩, ⟨0, 0⟩, ⟨0, 0⟩],
            [0, 0, 0, 0], [0, 0, 0, 0]⟩, 0, 0, false⟩).1.g.x.getD ((3 + j) % 4) 0) =
        [13, 14, 15, 16] :=
  ⟨by decide, tmp_daq_window_after_wrap (Libm.mk Real.exp Real.cos Real.sin Real.sqrt (Real.logb 10)
          (fun b a => Complex.arg ⟨a, b⟩) Real.pi) 4 (by decide)
    ⟨⟨[0, 0, 0, 0], [⟨0, 0⟩, ⟨0, 0⟩, ⟨0, 0⟩, ⟨0, 0⟩], [⟨0, 0⟩, ⟨0, 0⟩, ⟨0, 0⟩, ⟨0, 0⟩],
            [0, 0, 0, 0], [0, 0, 0, 0]⟩, 0, 0, false⟩ rfl rfl [10, 11, 12, 13, 14, 15, 16] rfl⟩

/-- Claim C12 as stated fails at `N = 4` with the seven values `10 .. 16`
written from the start of a window: read in index order the window is
`[14, 15, 16, 13]`, while the last four written values in chronological order
are `[13, 14, 15, 16]`. -/
theorem tmp_daq_window_counterexample :
    (tmp_daq_ticks (Libm.mk Real.exp Real.cos Real.sin Real.sqrt (Real.logb 10)
          (fun b a => Complex.arg ⟨a, b⟩) Real.pi) 4 [10, 11, 12, 13, 14, 15, 16]
        ⟨⟨[0, 0, 0, 0], [⟨0, 0⟩, ⟨0, 0⟩, ⟨0, 0⟩, ⟨0, 0⟩], [⟨0, 0⟩, ⟨0, 0⟩, ⟨0, 0⟩, ⟨0, 0⟩],
            [0, 0, 0, 0], [0, 0, 0, 0]⟩, 0, 0, false⟩).1.g.x = [14, 15, 16, 13] ∧
      List.drop 3 ([10, 11, 12, 13, 14, 15, 16] : List ℝ) = [13, 14, 15, 16] := by
  constructor
  · simp [tmp_daq_ticks, tmp_daq_tick_x, tmp_daq_tick_n]
  · rfl

/-- Claim C14 fails on the code: from the constructed object (`nsamples = 64`,
three published sequences of 64 entries) one completed pass of
`TempScope::dftThreadOperation` leaves 128 entries in each of `signalDFT`,
`signalSpectrum` and `signalPSD`, and two passes leave 192, with `nsamples`
still 64: `push_back` appends to the previous result. -/
theorem TempScope_result_grows :
    (TempScope.dftThreadOperation_cycles
        (Libm.mk Real.exp Real.cos Real.sin Real.sqrt (Real.logb 10)
          (fun b a => Complex.arg ⟨a, b⟩) Real.pi)
        TempScope.new
        [(List.replicate 64 1, List.replicate 64 ⟨0, 0⟩)]).signalDFT.length = 128 ∧
      (TempScope.dftThreadOperation_cycles
        (Libm.mk Real.exp Real.cos Real.sin Real.sqrt (Real.logb 10)
          (fun b a => Complex.arg ⟨a, b⟩) Real.pi)
        TempScope.new
        [(List.replicate 64 1, List.replicate 64 ⟨0, 0⟩)]).signalSpectrum.length = 128 ∧
      (TempScope.dftThreadOperation_cycles
        (Libm.mk Real.exp Real.cos Real.sin Real.sqrt (Real.logb 10)
          (fun b a => Complex.arg ⟨a, b⟩) Real.pi)
        TempScope.new
        [(List.replicate 64 1, List.replicate 64 ⟨0, 0⟩)]).signalPSD.length = 128 ∧
      (TempScope.dftThreadOperation_cycles
        (Libm.mk Real.exp Real.cos Real.sin Real.sqrt (Real.logb 10)
          (fun b a => Complex.arg ⟨a, b⟩) Real.pi)
        TempScope.new
        [(List.replicate 64 1, List.replicate 64 ⟨0, 0⟩)]).nsamples = 64 ∧
      (TempScope.dftThreadOperation_cycles
        (Libm.mk Real.exp Real.cos Real.sin Real.sqrt (Real.logb 10)
          (fun b a => Complex.arg ⟨a, b⟩) Real.pi)
        TempScope.new
        [(List.replicate 64 1, List.replicate 64 ⟨0, 0⟩),
          (List.replicate 64 2, List.replicate 64 ⟨0, 0⟩)]).signalDFT.length = 192 := by
  obtain ⟨h1, h2, h3, h4⟩ := dftThreadOperation_cycles_lengths
    (Libm.mk Real.exp Real.cos Real.sin Real.sqrt (Real.logb 10)
      (fun b a => Complex.arg ⟨a, b⟩) Real.pi)
    [(List.replicate 64 (1 : ℝ), List.replicate 64 (⟨0, 0⟩ : complex_t ℝ))] TempScope.new
  obtain ⟨k1, -, -, -⟩ := dftThreadOperation_cycles_lengths
    (Libm.mk Real.exp Real.cos Real.sin Real.sqrt (Real.logb 10)
      (fun b a => Complex.arg ⟨a, b⟩) Real.pi)
    [(List.replicate 64 (1 : ℝ), List.replicate 64 (⟨0, 0⟩ : complex_t ℝ)),
      (List.replicate 64 (2 : ℝ), List.replicate 64 (⟨0, 0⟩ : complex_t ℝ))] TempScope.new
  rw [h1, h2, h3, h4, k1]
  simp [TempScope.new]

/-- Claim C15, amended: in a pass of `tmp_daq` whose sensor read fails
(`TMP102::temp` returns a non-zero code) the returned code is dropped and the
slot is written all the same: `x[n]` receives 0, the value the local `temp`
was given before the call, and acquisition goes on with the next slot. -/
theorem tmp_daq_failed_read (L : Libm R) (N : Nat) (dev : TMP102) (bus : TempBus)
    (s : DaqState R) (hfail : (TMP102.temp dev bus (0 : R)).ret ≠ 0) :
    (tmp_daq L N dev [bus] s).1.g.x = s.g.x.set s.n 0 ∧
      (tmp_daq L N dev [bus] s).1.n = (if s.n + 1 < N then s.n + 1 else 0) := by
  have htemp : daq_temp dev bus = (0 : R) := by
    unfold daq_temp
    unfold TMP102.temp at hfail ⊢
    by_cases hw : bus.write_ack = 0
    · by_cases hr : bus.read_ack = 0
      · simp [hw, hr] at hfail
      · simp [hw, hr]
    · simp [hw]
  have hrun : (tmp_daq L N dev [bus] s).1 = (tmp_daq_tick L N (0 : R) s).1 := by
    simp [tmp_daq, tmp_daq_ticks, htemp]
  rw [hrun, tmp_daq_tick_x, tmp_daq_tick_n]
  exact ⟨rfl, rfl⟩

/-- Claim C15, the amended statement at `N = 2`, window `[5, 7]`, `n = 0`,
with a read that is not acknowledged: slot 0 receives 0 and `n` becomes 1. -/
theorem tmp_daq_failed_read_witness :
    (TMP102.temp ⟨0x48, 0x91, 0x91⟩ ⟨0, 1, 0x19, 0x00⟩ (0 : ℝ)).ret ≠ 0 ∧
      (tmp_daq (Libm.mk Real.exp Real.cos Real.sin Real.sqrt (Real.logb 10)
          (fun b a => Complex.arg ⟨a, b⟩) Real.pi) 2 ⟨0x48, 0x91, 0x91⟩ [⟨0, 1, 0x19, 0x00⟩]
        ⟨⟨[5, 7], [⟨0, 0⟩, ⟨0, 0⟩], [⟨0, 0⟩, ⟨0, 0⟩], [0, 0], [0, 0]⟩, 0, 0, false⟩).1.g.x = [0, 7] ∧
      (tmp_daq (Libm.mk Real.exp Real.cos Real.sin Real.sqrt (Real.logb 10)
          (fun b a => Complex.arg ⟨a, b⟩) Real.pi) 2 ⟨0x48, 0x91, 0x91⟩ [⟨0, 1, 0x19, 0x00⟩]
        ⟨⟨[5, 7], [⟨0, 0⟩, ⟨0, 0⟩], [⟨0, 0⟩, ⟨0, 0⟩], [0, 0], [0, 0]⟩, 0, 0, false⟩).1.n = 1 := by
  have hfail : (TMP102.temp ⟨0x48, 0x91, 0x91⟩ ⟨0, 1, 0x19, 0x00⟩ (0 : ℝ)).ret ≠ 0 := by
    simp [TMP102.temp]
  obtain ⟨hx, hn⟩ := tmp_daq_failed_read (Libm.mk Real.exp Real.cos Real.sin Real.sqrt (Real.logb 10)
          (fun b a => Complex.arg ⟨a, b⟩) Real.pi) 2 ⟨0x48, 0x91, 0x91⟩ ⟨0, 1, 0x19, 0x00⟩
    ⟨⟨[5, 7], [⟨0, 0⟩, ⟨0, 0⟩], [⟨0, 0⟩, ⟨0, 0⟩], [0, 0], [0, 0]⟩, 0, 0, false⟩ hfail
  refine ⟨hfail, ?_, ?_⟩
  · rw [hx]
    rfl
  · rw [hn]
    rfl

/-- Claim C15 as stated fails at `N = 2`, window `[5, 7]`, `n = 0`, when the
register-address write is not acknowledged: `TMP102::temp` returns 100 and the
slot `x[0]`, which held 5, holds 0 after the pass. -/
theorem tmp_daq_failed_read_counterexample :
    (TMP102.temp ⟨0x48, 0x91, 0x91⟩ ⟨1, 0, 0x19, 0x00⟩ (0 : ℝ)).ret = 100 ∧
      (tmp_daq
        (Libm.mk Real.exp Real.cos Real.sin Real.sqrt (Real.logb 10)
          (fun b a => Complex.arg ⟨a, b⟩) Real.pi)
        2 ⟨0x48, 0x91, 0x91⟩ [⟨1, 0, 0x19, 0x00⟩]
        ⟨⟨[5, 7], [⟨0, 0⟩, ⟨0, 0⟩], [⟨0, 0⟩, ⟨0, 0⟩], [0, 0], [0, 0]⟩, 0, 0, false⟩).1.g.x =
        [0, 7] := by
  constructor
  · simp [TMP102.temp]
  · simp [tmp_daq, tmp_daq_ticks, tmp_daq_tick_x, daq_temp, TMP102.temp]

/-- Claim C16: `TMP102::temp` returns 0 exactly when both bus transactions are
acknowledged, and then `*temp` holds the reading; it returns 100 when the
register-address write is not acknowledged, the read not being issued, and 101
when the write is acknowledged and the 2-byte read is not; in both failure
cases `*temp` is as it was before the call. -/
theorem TMP102_temp_codes (dev : TMP102) (bus : TempBus) (temp : R) :
    ((TMP102.temp dev bus temp).ret = 0 ↔ bus.write_ack = 0 ∧ bus.read_ack = 0) ∧
      (bus.write_ack = 0 ∧ bus.read_ack = 0 →
        (TMP102.temp dev bus temp).temp =
          (((bus.data0 <<< 4) ||| (bus.data1 >>> 4) : Nat) : R) * 0.0625) ∧
      (bus.write_ack ≠ 0 →
        (TMP102.temp dev bus temp).ret = 100 ∧
          (TMP102.temp dev bus temp).ops = [I2COp.write dev.wradd [TEMP_REG]] ∧
          (TMP102.temp dev bus temp).temp = temp) ∧
      (bus.write_ack = 0 ∧ bus.read_ack ≠ 0 →
        (TMP102.temp dev bus temp).ret = 101 ∧
          (TMP102.temp dev bus temp).ops =
            [I2COp.write dev.wradd [TEMP_REG], I2COp.read dev.rdadd 2] ∧
          (TMP102.temp dev bus temp).temp = temp) := by
  unfold TMP102.temp
  by_cases hw : bus.write_ack = 0
  · by_cases hr : bus.read_ack = 0
    · simp [hw, hr]
    · simp [hw, hr]
  · simp [hw]

/-- Claim C17: when `TMP102::init(rate)` sends the two configuration bytes
(the three earlier transactions being acknowledged), it sends `data[0]` as
read and a `data[1]` whose bits 7..6 are the two-bit value of `rate` for `rate`
in `0 .. 3` and whose low six bits are as read; every `rate` outside `0 .. 3`
gives exactly what `rate = 2` gives. -/
theorem TMP102_init_rate (dev : TMP102) (bus : InitBus) (rate : Int)
    (hd0 : bus.data0 < 256) (hd1 : bus.data1 < 256)
    (h1 : bus.ack1 = 0) (h2 : bus.ack2 = 0) (h3 : bus.ack3 = 0) :
    (TMP102.init dev bus rate).ops =
        [I2COp.write dev.wradd [CONFIG_REG], I2COp.read dev.rdadd 2,
          I2COp.write dev.wradd [CONFIG_REG],
          I2COp.write dev.wradd [bus.data0, TMP102.rate_bits rate bus.data1]] ∧
      (0 ≤ rate ∧ rate ≤ 3 → ((TMP102.rate_bits rate bus.data1) >>> 6 : Nat) = rate) ∧
      (TMP102.rate_bits rate bus.data1) % 64 = bus.data1 % 64 ∧
      TMP102.rate_bits rate bus.data1 < 256 ∧
      (¬ (0 ≤ rate ∧ rate ≤ 3) → TMP102.init dev bus rate = TMP102.init dev bus 2) := by
  have haux := rate_bits_spec_aux ⟨bus.data1, hd1⟩
  simp only [] at haux
  obtain ⟨a0, a1, a2, a3, b0, b1, b2, b3, c0, c1, c2, c3⟩ := haux
  have hdef : ∀ r : Int, ¬ (0 ≤ r ∧ r ≤ 3) →
      TMP102.rate_bits r bus.data1 = TMP102.rate_bits 2 bus.data1 := by
    intro r hr
    have r0 : r ≠ 0 := by omega
    have r1 : r ≠ 1 := by omega
    have r2 : r ≠ 2 := by omega
    have r3 : r ≠ 3 := by omega
    simp [TMP102.rate_bits, r0, r1, r2, r3]
  refine ⟨?_, ?_, ?_, ?_, ?_⟩
  · unfold TMP102.init
    by_cases h4 : bus.ack4 = 0 <;> simp [h1, h2, h3, h4]
  · intro hr
    have hcases : rate = 0 ∨ rate = 1 ∨ rate = 2 ∨ rate = 3 := by omega
    rcases hcases with h | h | h | h <;> subst h
    · rw [a0]; rfl
    · rw [a1]; rfl
    · rw [a2]; rfl
    · rw [a3]; rfl
  · by_cases hr : 0 ≤ rate ∧ rate ≤ 3
    · have hcases : rate = 0 ∨ rate = 1 ∨ rate = 2 ∨ rate = 3 := by omega
      rcases hcases with h | h | h | h <;> subst h
      · exact b0
      · exact b1
      · exact b2
      · exact b3
    · rw [hdef rate hr]
      exact b2
  · by_cases hr : 0 ≤ rate ∧ rate ≤ 3
    · have hcases : rate = 0 ∨ rate = 1 ∨ rate = 2 ∨ rate = 3 := by omega
      rcases hcases with h | h | h | h <;> subst h
      · exact c0
      · exact c1
      · exact c2
      · exact c3
    · rw [hdef rate hr]
      exact c2
  · intro hr
    unfold TMP102.init
    rw [hdef rate hr]

/-- Claim C17 at the configuration bytes `0x60, 0xA0` and `rate = 1`: the
bytes sent are `0x60, 0x60`. -/
theorem TMP102_init_rate_witness :
    (0xA0 : Nat) < 256 ∧
      (TMP102.init ⟨0x48, 0x91, 0x91⟩ ⟨0, 0, 0x60, 0xA0, 0, 0⟩ 1).ops =
        [I2COp.write 0x91 [1], I2COp.read 0x91 2, I2COp.write 0x91 [1],
          I2COp.write 0x91 [0x60, 0x60]] := by
  have h := (TMP102_init_rate ⟨0x48, 0x91, 0x91⟩ ⟨0, 0, 0x60, 0xA0, 0, 0⟩ 1
    (by decide) (by decide) rfl rfl rfl).1
  refine ⟨by decide, ?_⟩
  rw [h]
  decide

/-- Claim C18: `setNumberOfSamples(n)` sets `nsamples` to `n` when `n > 0` and
leaves it as it was when `n ≤ 0`; `setAqcuisitionFrequencyInHz(f)` sets
`daqfreq` to `f` only when `f > 0`; so from the defaults (64, 1) both values
are positive after any sequence of setter calls. -/
theorem TempScope_setters_positive (t : TempScope R) (n f : Int)
    (calls : List SetterCall) :
    (t.setNumberOfSamples n).nsamples = (if n > 0 then n else t.nsamples) ∧
      (t.setNumberOfSamples n).daqfreq = t.daqfreq ∧
      (t.setAqcuisitionFrequencyInHz f).daqfreq = (if f > 0 then f else t.daqfreq) ∧
      (t.setAqcuisitionFrequencyInHz f).nsamples = t.nsamples ∧
      (TempScope.new : TempScope R).nsamples = 64 ∧
      (TempScope.new : TempScope R).daqfreq = 1 ∧
      0 < ((TempScope.new : TempScope R).apply_setters calls).nsamples ∧
      0 < ((TempScope.new : TempScope R).apply_setters calls).daqfreq := by
  have hf : ∀ (u : TempScope R) (f : Int), 0 < u.nsamples → 0 < u.daqfreq →
      0 < (u.setAqcuisitionFrequencyInHz f).nsamples ∧
        0 < (u.setAqcuisitionFrequencyInHz f).daqfreq := by
    intro u f h1 h2
    unfold TempScope.setAqcuisitionFrequencyInHz
    by_cases hpos : f > 0
    · rw [if_pos hpos]
      exact ⟨h1, hpos⟩
    · rw [if_neg hpos]
      exact ⟨h1, h2⟩
  have hn : ∀ (u : TempScope R) (n : Int), 0 < u.nsamples → 0 < u.daqfreq →
      0 < (u.setNumberOfSamples n).nsamples ∧ 0 < (u.setNumberOfSamples n).daqfreq := by
    intro u n h1 h2
    unfold TempScope.setNumberOfSamples
    by_cases hpos : n > 0
    · rw [if_pos hpos]
      exact ⟨hpos, h2⟩
    · rw [if_neg hpos]
      exact ⟨h1, h2⟩
  have hinv : ∀ (cs : List SetterCall) (u : TempScope R),
      0 < u.nsamples → 0 < u.daqfreq →
        0 < (u.apply_setters cs).nsamples ∧ 0 < (u.apply_setters cs).daqfreq := by
    intro cs
    induction cs with
    | nil => intro u h1 h2; exact ⟨h1, h2⟩
    | cons c cs ih =>
      intro u h1 h2
      unfold TempScope.apply_setters
      rw [List.foldl_cons]
      cases c with
      | frequency f => exact ih _ (hf u f h1 h2).1 (hf u f h1 h2).2
      | samples n => exact ih _ (hn u n h1 h2).1 (hn u n h1 h2).2
  have hnew := hinv calls (TempScope.new : TempScope R)
    (show (0 : Int) < 64 by decide) (show (0 : Int) < 1 by decide)
  refine ⟨?_, ?_, ?_, ?_, rfl, rfl, hnew.1, hnew.2⟩
  · unfold TempScope.setNumberOfSamples
    split <;> rfl
  · unfold TempScope.setNumberOfSamples
    split <;> rfl
  · unfold TempScope.setAqcuisitionFrequencyInHz
    split <;> rfl
  · unfold TempScope.setAqcuisitionFrequencyInHz
    split <;> rfl

/-- Claim C21: for every window size `N ≥ 1`, every index used by the
derivation loops of `computeDFT` and `computePSD` is in bounds: for each loop
value `n` below the loop bound `floor(N/2) - 1`, the reads `X[n+1]`, `X[n+2]`
and the writes at `2n`, `2n+1` lie in `0 .. N-1`, for `N < 4` the loop makes no
pass, and run with every access checked against buffers of `N` entries both
loops complete with the result of the unchecked loops. -/
theorem derivation_indices_in_bounds (L : Libm R) (N : Nat) (hN : 1 ≤ N)
    (X : List (complex_t R)) (hX : X.length = N) (spectrum Pxx : List R)
    (hs : spectrum.length = N) (hP : Pxx.length = N) :
    (∀ n, n < derivation_passes (N : Int) →
        n + 1 < N ∧ n + 2 < N ∧ 2 * n < N ∧ 2 * n + 1 < N) ∧
      (N < 4 → derivation_passes (N : Int) = 0) ∧
      computeDFT_spectrum_checked L N X spectrum =
        some (computeDFT_spectrum L N X spectrum) ∧
      computePSD_loop_checked L N X Pxx = some (computePSD_loop L N X Pxx) := by
  refine ⟨?_, ?_, ?_, ?_⟩
  · intro n hn
    rw [derivation_passes_natCast] at hn
    omega
  · intro h4
    rw [derivation_passes_natCast]
    omega
  · unfold computeDFT_spectrum_checked computeDFT_spectrum
    simp only [derivation_passes_natCast, Int.toNat_ofNat]
    obtain ⟨hz, hzlen⟩ := checked_zero_loop (0 : R) N spectrum hs
    rw [hz, Option.some_bind]
    exact checked_pair_loop ⟨0, 0⟩ (fun x1 => complex_norm L x1)
      (fun x2 x1 => (complex_norm L x2 + complex_norm L x1) / 2) N X hX _ hzlen
  · unfold computePSD_loop_checked computePSD_loop
    simp only [derivation_passes_natCast, Int.toNat_ofNat]
    obtain ⟨hz, hzlen⟩ := checked_zero_loop (0 : R) N Pxx hP
    rw [hz, Option.some_bind]
    exact checked_pair_loop ⟨0, 0⟩ (fun x1 => 20 * L.log10 (complex_norm L x1 ^ 2))
      (fun x2 x1 => 20 * L.log10 (((complex_norm L x2 + complex_norm L x1) / 2) ^ 2))
      N X hX _ hzlen

/-- Claim C21 at `N = 6`: the loop values are `0` and `1`, the largest read is
`X[3]` and the largest write is at position `3`. -/
theorem derivation_indices_in_bounds_witness :
    1 ≤ 6 ∧ derivation_passes ((6 : ℕ) : Int) = 2 ∧
      (∀ n, n < derivation_passes ((6 : ℕ) : Int) →
        n + 1 < 6 ∧ n + 2 < 6 ∧ 2 * n < 6 ∧ 2 * n + 1 < 6) ∧
      computeDFT_spectrum_checked
          (Libm.mk Real.exp Real.cos Real.sin Real.sqrt (Real.logb 10)
            (fun b a => Complex.arg ⟨a, b⟩) Real.pi) (6 : ℕ)
          [⟨9, 9⟩, ⟨1, 0⟩, ⟨0, 0⟩, ⟨1, 0⟩, ⟨9, 9⟩, ⟨9, 9⟩] [7, 7, 7, 7, 7, 7] =
        some (computeDFT_spectrum
          (Libm.mk Real.exp Real.cos Real.sin Real.sqrt (Real.logb 10)
            (fun b a => Complex.arg ⟨a, b⟩) Real.pi) (6 : ℕ)
          [⟨9, 9⟩, ⟨1, 0⟩, ⟨0, 0⟩, ⟨1, 0⟩, ⟨9, 9⟩, ⟨9, 9⟩] [7, 7, 7, 7, 7, 7]) := by
  obtain ⟨h1, -, h3, -⟩ := derivation_indices_in_bounds
    (Libm.mk Real.exp Real.cos Real.sin Real.sqrt (Real.logb 10)
      (fun b a => Complex.arg ⟨a, b⟩) Real.pi) 6 (by decide)
    [⟨9, 9⟩, ⟨1, 0⟩, ⟨0, 0⟩, ⟨1, 0⟩, ⟨9, 9⟩, ⟨9, 9⟩] rfl
    [7, 7, 7, 7, 7, 7] [7, 7, 7, 7, 7, 7] rfl rfl
  exact ⟨by decide, by decide, h1, h3⟩

/-- Claim C22 fails on the code: for the device address `0x48` the constructor
leaves `0x91` in both the write address and the read address, because
`rdadd = (wradd |= 1)` stores the low bit in `wradd` as well; the claim and
the comment of TMP102.cpp:12-15 give `0x90` for the write address. -/
theorem TMP102_new_write_address :
    (TMP102.new 0x48).address = 0x48 ∧ (TMP102.new 0x48).wradd = 0x91 ∧
      (TMP102.new 0x48).rdadd = 0x91 ∧ (0x48 <<< 1 : Nat) = 0x90 ∧
      (TMP102.new 0x48).wradd ≠ 0x90 := by
  decide

/-- Claim C23: for every pair of unsigned bytes `(b0, b1)` read from the
temperature register, `TMP102::temp` stores `r * 0.0625` where
`r = b0 * 16 + floor(b1 / 16)` is below 4096; a byte `b1` with the same high
four bits gives the same stored value, and the stored value is a multiple of
`1/16` between `0` and `255.9375`. -/
theorem TMP102_temp_reading {K : Type} [LinearOrderedField K] (dev : TMP102)
    (bus : TempBus) (temp : K) (h0 : bus.data0 < 256) (h1 : bus.data1 < 256)
    (hw : bus.write_ack = 0) (hr : bus.read_ack = 0) :
    (TMP102.temp dev bus temp).temp =
        ((bus.data0 * 16 + bus.data1 / 16 : Nat) : K) * 0.0625 ∧
      bus.data0 * 16 + bus.data1 / 16 < 4096 ∧
      (∀ b1 : Nat, b1 < 256 → b1 / 16 = bus.data1 / 16 →
        (TMP102.temp dev { bus with data1 := b1 } temp).temp =
          (TMP102.temp dev bus temp).temp) ∧
      (TMP102.temp dev bus temp).temp =
        ((bus.data0 * 16 + bus.data1 / 16 : Nat) : K) / 16 ∧
      0 ≤ (TMP102.temp dev bus temp).temp ∧
      (TMP102.temp dev bus temp).temp ≤ 255.9375 := by
  have hval : ∀ b : TempBus, b.write_ack = 0 → b.read_ack = 0 → b.data1 < 256 →
      (TMP102.temp dev b temp).temp = ((b.data0 * 16 + b.data1 / 16 : Nat) : K) * 0.0625 := by
    intro b hbw hbr hb1
    unfold TMP102.temp
    simp only [hbw, hbr, ne_eq, not_true_eq_false, if_false]
    rw [reading_eq_mul_add b.data0 b.data1 hb1]
  have hr4 : bus.data0 * 16 + bus.data1 / 16 < 4096 := by omega
  have hv := hval bus hw hr h1
  have hcast : ((bus.data0 * 16 + bus.data1 / 16 : Nat) : K) ≤ 4095 := by
    have : bus.data0 * 16 + bus.data1 / 16 ≤ 4095 := by omega
    exact_mod_cast this
  have hnn : (0 : K) ≤ ((bus.data0 * 16 + bus.data1 / 16 : Nat) : K) := Nat.cast_nonneg _
  refine ⟨hv, hr4, ?_, ?_, ?_, ?_⟩
  · intro b1 hb1 hsame
    rw [hv, hval { bus with data1 := b1 } hw hr hb1]
    simp only [hsame]
  · rw [hv]
    norm_num
    ring
  · rw [hv]
    have : (0 : K) ≤ 0.0625 := by norm_num
    exact mul_nonneg hnn this
  · rw [hv]
    have h16 : ((bus.data0 * 16 + bus.data1 / 16 : Nat) : K) * 0.0625 ≤ 4095 * 0.0625 := by
      apply mul_le_mul_of_nonneg_right hcast
      norm_num
    calc ((bus.data0 * 16 + bus.data1 / 16 : Nat) : K) * 0.0625 ≤ 4095 * 0.0625 := h16
      _ = 255.9375 := by norm_num

/-- Claim C23 at the bytes `0x19, 0x0F`: the reading is `0x190 = 400` and the
stored value is `25`. -/
theorem TMP102_temp_reading_witness :
    (0x19 : Nat) < 256 ∧ (0x0F : Nat) < 256 ∧
      (TMP102.temp ⟨0x48, 0x91, 0x91⟩ ⟨0, 0, 0x19, 0x0F⟩ (7 : ℚ)).temp = 25 := by
  have h := (TMP102_temp_reading (K := ℚ) ⟨0x48, 0x91, 0x91⟩ ⟨0, 0, 0x19, 0x0F⟩ 7
    (by decide) (by decide) rfl rfl).1
  refine ⟨by decide, by decide, ?_⟩
  rw [h]
  norm_num

end Claims

end TempSpectrometer
